import Mathlib

/-
Verification of the P2P bank node (src/main.py).

The Python source is shallowly embedded below.  Strings are modelled as
`List Char` (`Str`).  Python's `decimal.Decimal` is modelled at two levels.
`Dec`, a pair of an integer coefficient `m` and an integer exponent `e`
denoting the exact finite value `m * 10 ^ e`, carries the statements that
only involve finite decimal literals (arithmetic is exact, matching their
scope, which never exceeds the 28-digit context precision).  `PyDec` adds
the special values `Infinity`, `-Infinity`, `NaN` and `sNaN` that
`Decimal(s)` also accepts (with the sign and payload it keeps for NaNs, and
with the whitespace and underscore stripping it applies to its input),
together with the default-context traps: ordered comparisons involving a
NaN, operations on a signaling NaN, and `Infinity - Infinity` raise
`InvalidOperation`.  Deposit and withdrawal are embedded over both levels:
`account_deposit`/`account_withdrawal` on finite values, and the full
`account_deposit_py`/`account_withdrawal_py`, where the comparisons and the
balance update may themselves raise.  `decimal`'s string conversion
(`to-sci-string`) and its string parser are embedded faithfully, as are
`str.split()`, `str.split('/')`, `str.strip()`, `str.upper()` (ASCII) and
`int()` (on the whitespace- and underscore-free tokens the claims use).
The JSON container round-trip of `_save_state`/`_load_state` is modelled as
the identity on the record structure (`FileContent.record`), since
`json.dump`/`json.load` is faithful on these records; the failure modes are
split by where the raise happens relative to the assignment of
`next_account_number` at line 63 (file absent, unreadable before the
counter is read, `accounts` key failing after it, per-account parse failure
mid-loop).  Thread scheduling, sockets and logging are outside the ledger
semantics; `handle_client` is modelled as a function of the list of chunks
successively returned by `recv`.
-/

namespace P2PBank

abbrev Str := List Char

def isWS (c : Char) : Bool := c.isWhitespace

def isDigitC (c : Char) : Bool := c.isDigit

/-- Python `str.split()` (split on whitespace runs, dropping empty words):
worker with the accumulator holding the current word reversed. -/
def splitWsAux : Str → Str → List Str
  | [], acc => if acc = [] then [] else [acc.reverse]
  | c :: cs, acc =>
    if isWS c then
      if acc = [] then splitWsAux cs []
      else acc.reverse :: splitWsAux cs []
    else splitWsAux cs (c :: acc)

def pySplitWs (l : Str) : List Str := splitWsAux l []

/-- Python `str.strip()`. -/
def pyStrip (l : Str) : Str := ((l.dropWhile isWS).reverse.dropWhile isWS).reverse

/-- Python `str.split(sep)` for a one-character separator (keeps empty parts). -/
def splitChar (sep : Char) : Str → List Str
  | [] => [[]]
  | c :: cs =>
    if c = sep then [] :: splitChar sep cs
    else
      match splitChar sep cs with
      | [] => [[c]]
      | w :: ws => (c :: w) :: ws

/-- Python `str.upper()` (ASCII fragment). -/
def pyUpper (l : Str) : Str := l.map Char.toUpper

/-- Numeric value of a big-endian string of decimal digit characters. -/
def digitsVal (l : Str) : Nat := l.foldl (fun a c => 10 * a + (c.toNat - 48)) 0

/-- Decimal digit characters of `n`, big-endian, with explicit fuel so that
the definition is structural and kernel-reducible. -/
def natToCharsAux : Nat → Nat → Str
  | 0, _ => []
  | _ + 1, 0 => []
  | fuel + 1, n + 1 => natToCharsAux fuel ((n + 1) / 10) ++ [Nat.digitChar ((n + 1) % 10)]

def natToChars (n : Nat) : Str := if n = 0 then ['0'] else natToCharsAux n n

/-- Python `str(i)` for an `int`. -/
def intToChars (i : Int) : Str :=
  if i < 0 then '-' :: natToChars i.natAbs else natToChars i.natAbs

/-- Python `decimal.Decimal` (finite values): the exact value `m * 10 ^ e`.
The coefficient's digit string is that of `m.natAbs` (one digit for zero),
mirroring `Decimal`'s coefficient-digit tuple, which never carries leading
zeros apart from the single zero digit. -/
structure Dec where
  m : Int
  e : Int
deriving DecidableEq

def decZero : Dec := ⟨0, 0⟩

/-- Left operand aligned to the common (minimal) exponent. -/
def alignL (a b : Dec) : Int := a.m * 10 ^ (a.e - min a.e b.e).toNat

/-- Right operand aligned to the common (minimal) exponent. -/
def alignR (a b : Dec) : Int := b.m * 10 ^ (b.e - min a.e b.e).toNat

def decLt (a b : Dec) : Bool := decide (alignL a b < alignR a b)

def decLe (a b : Dec) : Bool := decide (alignL a b ≤ alignR a b)

def decEqv (a b : Dec) : Bool := decide (alignL a b = alignR a b)

def decAdd (a b : Dec) : Dec := ⟨alignL a b + alignR a b, min a.e b.e⟩

def decNeg (a : Dec) : Dec := ⟨-a.m, a.e⟩

def decSub (a b : Dec) : Dec := decAdd a (decNeg b)

/-- The exponent suffix of a scientific-notation decimal string (an explicit
`+` for a nonnegative adjusted exponent, as Python prints it). -/
def expChars (adj : Int) : Str := if 0 ≤ adj then '+' :: intToChars adj else intToChars adj

/-- The mantissa of a scientific-notation decimal string: first digit, then a
point and the remaining digits when there are any. -/
def sciMantissa (ds : Str) : Str :=
  match ds with
  | [] => []
  | [c] => [c]
  | c :: rest => c :: '.' :: rest

/-- The unsigned part of the General Decimal Arithmetic to-scientific-string
conversion, from the coefficient digit string `ds` and the exponent `e`
(`e + ds.length - 1` is the adjusted exponent). -/
def formatBody (ds : Str) (e : Int) : Str :=
  if e ≤ 0 ∧ -6 ≤ e + (ds.length : Int) - 1 then
    if e = 0 then ds
    else if e + (ds.length : Int) - 1 < 0 then
      '0' :: '.' :: (List.replicate (-e - (ds.length : Int)).toNat '0' ++ ds)
    else ds.take ((ds.length : Int) + e).toNat ++ '.' :: ds.drop ((ds.length : Int) + e).toNat
  else sciMantissa ds ++ 'E' :: expChars (e + (ds.length : Int) - 1)

/-- Python `str(d)` for a `Decimal`. -/
def formatDec (d : Dec) : Str :=
  if d.m < 0 then '-' :: formatBody (natToChars d.m.natAbs) d.e
  else formatBody (natToChars d.m.natAbs) d.e

def spanDigits (l : Str) : Str × Str := (l.takeWhile isDigitC, l.dropWhile isDigitC)

/-- Parse an optionally signed, all-digit string (the exponent part of a
decimal literal; also Python `int()` on the tokens that occur here). -/
def parseSignedNat (l : Str) : Option Int :=
  if l.head? = some '-' then
    if l.tail ≠ [] ∧ l.tail.all isDigitC then some (-(digitsVal l.tail : Int)) else none
  else if l.head? = some '+' then
    if l.tail ≠ [] ∧ l.tail.all isDigitC then some ((digitsVal l.tail : Int)) else none
  else if l ≠ [] ∧ l.all isDigitC then some ((digitsVal l : Int)) else none

/-- Python `int(s)` on whitespace-free tokens. -/
def parseInt (l : Str) : Option Int := parseSignedNat l

/-- Final stage of the `Decimal(s)` string parser, once the input is split
into its integer-digit part, fractional-digit part and remaining suffix. -/
def parseDecFinish (neg : Bool) (intPart fracPart rest2 : Str) : Option Dec :=
  if intPart = [] ∧ fracPart = [] then none
  else if rest2 = [] then
    some ⟨if neg then -(digitsVal (intPart ++ fracPart) : Int)
          else (digitsVal (intPart ++ fracPart) : Int), -(fracPart.length : Int)⟩
  else if rest2.head? = some 'e' ∨ rest2.head? = some 'E' then
    match parseSignedNat rest2.tail with
    | some ev =>
      some ⟨if neg then -(digitsVal (intPart ++ fracPart) : Int)
            else (digitsVal (intPart ++ fracPart) : Int), ev - (fracPart.length : Int)⟩
    | none => none
  else none

/-- The sign-free part of the `Decimal(s)` string parser:
`digits ('.' digits?)? | '.' digits`, then `(('e'|'E') sign? digits)?`. -/
def parseDecCore (neg : Bool) (l1 : Str) : Option Dec :=
  parseDecFinish neg (spanDigits l1).1
    (if (spanDigits l1).2.head? = some '.' then (spanDigits (spanDigits l1).2.tail).1 else [])
    (if (spanDigits l1).2.head? = some '.' then (spanDigits (spanDigits l1).2.tail).2
     else (spanDigits l1).2)

/-- The `Decimal(s)` string parser (finite numeric literals). -/
def parseDec (l : Str) : Option Dec :=
  if l.head? = some '-' then parseDecCore true l.tail
  else if l.head? = some '+' then parseDecCore false l.tail
  else parseDecCore false l

/-- The in-memory ledger: `Bank.accounts` (a Python dict in insertion order,
modelled as an association list with unique keys), `Bank.next_account_number`
and the immutable `Bank.ip_address`. -/
structure BankState where
  accounts : List (Int × Dec)
  next_account_number : Int
  ip_address : Str
deriving DecidableEq

/-- Python dict lookup `accounts[n]` / `n in accounts`. -/
def dictGet (n : Int) : List (Int × Dec) → Option Dec
  | [] => none
  | p :: ps => if p.1 = n then some p.2 else dictGet n ps

/-- Python dict update `accounts[n] = v`: replaces in place, appends if new. -/
def dictSet (n : Int) (v : Dec) : List (Int × Dec) → List (Int × Dec)
  | [] => [(n, v)]
  | p :: ps => if p.1 = n then (n, v) :: ps else p :: dictSet n v ps

def msgBadAccFormat : Str := "Neplatný formát účtu (očekáváno: číslo/IP)".data

def msgBadNumOrAmount : Str := "Neplatný formát čísla nebo částky".data

def msgConvSyntax : Str := "[<class 'decimal.ConversionSyntax'>]".data

def msgNotLocal (ip : Str) : Str := "Účet není v této bance (očekáváno: ".data ++ ip ++ ")".data

def msgNonPositive : Str := "Částka musí být kladná".data

def msgNoAccount : Str := "Účet neexistuje".data

def msgInsufficient (bal : Dec) : Str :=
  "Nedostatečný zůstatek (dostupné: ".data ++ formatDec bal ++ " Kč)".data

def msgBadNumBalance : Str := "Neplatný formát čísla účtu".data

/-- `Bank.bank_code`. -/
def bank_code (s : BankState) : Str := s.ip_address

/-- `Bank.account_create`: allocate `next_account_number`, increment it,
insert a zero-balance account, return `"<number>/<ip>"`. -/
def account_create (s : BankState) : BankState × Str :=
  let n := s.next_account_number
  ({ s with next_account_number := n + 1, accounts := dictSet n decZero s.accounts },
   intToChars n ++ '/' :: s.ip_address)

/-- `Bank.account_deposit`.  The second component is the normal return value
or the message of the raised exception; the first component is the ledger
state at the point where the call returns or raises.  Error messages and the
order of the checks mirror the source: the `'/'`-presence test, the two-way
unpack of `split('/')` and `int(...)` (both reported through the
`except ValueError` arm), `Decimal(...)` (whose `InvalidOperation` falls to
the generic arm and keeps `str(e)`), then the bank-address test, the
positivity test and the existence test. -/
def account_deposit (s : BankState) (account_full amount_str : Str) :
    BankState × Except Str Str :=
  if '/' ∈ account_full then
    match splitChar '/' account_full with
    | [account_num_str, ip] =>
      match parseInt account_num_str with
      | some account_num =>
        match parseDec amount_str with
        | some amount =>
          if ip ≠ s.ip_address then (s, .error (msgNotLocal s.ip_address))
          else if decLe amount decZero then (s, .error msgNonPositive)
          else
            match dictGet account_num s.accounts with
            | some bal =>
              let nb := decAdd bal amount
              ({ s with accounts := dictSet account_num nb s.accounts },
               .ok ("OK: Vloženo ".data ++ formatDec amount ++ " Kč na účet ".data ++
                    account_full ++ ", nový zůstatek: ".data ++ formatDec nb ++ " Kč".data))
            | none => (s, .error msgNoAccount)
        | none => (s, .error msgConvSyntax)
      | none => (s, .error msgBadNumOrAmount)
    | _ => (s, .error msgBadNumOrAmount)
  else (s, .error msgBadAccFormat)

/-- `Bank.account_withdrawal`: as deposit, with the insufficient-funds test
between the existence test and the mutation. -/
def account_withdrawal (s : BankState) (account_full amount_str : Str) :
    BankState × Except Str Str :=
  if '/' ∈ account_full then
    match splitChar '/' account_full with
    | [account_num_str, ip] =>
      match parseInt account_num_str with
      | some account_num =>
        match parseDec amount_str with
        | some amount =>
          if ip ≠ s.ip_address then (s, .error (msgNotLocal s.ip_address))
          else if decLe amount decZero then (s, .error msgNonPositive)
          else
            match dictGet account_num s.accounts with
            | some bal =>
              if decLt bal amount then (s, .error (msgInsufficient bal))
              else
                let nb := decSub bal amount
                ({ s with accounts := dictSet account_num nb s.accounts },
                 .ok ("OK: Vybráno ".data ++ formatDec amount ++ " Kč z účtu ".data ++
                      account_full ++ ", nový zůstatek: ".data ++ formatDec nb ++ " Kč".data))
            | none => (s, .error msgNoAccount)
        | none => (s, .error msgConvSyntax)
      | none => (s, .error msgBadNumOrAmount)
    | _ => (s, .error msgBadNumOrAmount)
  else (s, .error msgBadAccFormat)

/-- `Bank.account_balance` (read-only, hence no state component).  The
missing-`'/'` test raises a plain `Exception`, which the generic arm
re-raises with the account-format message unchanged; only the two
`ValueError` sites — the two-way unpack of `split('/')` and `int(...)` —
are re-raised with the number-format message. -/
def account_balance (s : BankState) (account_full : Str) : Except Str Str :=
  if '/' ∈ account_full then
    match splitChar '/' account_full with
    | [account_num_str, ip] =>
      match parseInt account_num_str with
      | some account_num =>
        if ip ≠ s.ip_address then .error (msgNotLocal s.ip_address)
        else
          match dictGet account_num s.accounts with
          | some bal => .ok (formatDec bal)
          | none => .error msgNoAccount
      | none => .error msgBadNumBalance
    | _ => .error msgBadNumBalance
  else .error msgBadAccFormat

/-- `Bank.execute_command`: tokenize, uppercase the opcode, dispatch, and
turn every raised exception into a single `"ERROR: ..."` response. -/
def execute_command (s : BankState) (command : Str) : BankState × Str :=
  let parts := pySplitWs (pyStrip command)
  match parts with
  | [] => (s, "ERROR: Prázdný příkaz".data)
  | p0 :: _ =>
    let cmd := pyUpper p0
    if cmd = "BC".data then (s, bank_code s)
    else if cmd = "AC".data then account_create s
    else if cmd = "AD".data then
      match parts with
      | [_, a, m] =>
        match account_deposit s a m with
        | (s', .ok t) => (s', t)
        | (s', .error e) => (s', "ERROR: ".data ++ e)
      | _ => (s, "ERROR: Použití: AD číslo/IP částka".data)
    else if cmd = "AW".data then
      match parts with
      | [_, a, m] =>
        match account_withdrawal s a m with
        | (s', .ok t) => (s', t)
        | (s', .error e) => (s', "ERROR: ".data ++ e)
      | _ => (s, "ERROR: Použití: AW číslo/IP částka".data)
    else if cmd = "AB".data then
      match parts with
      | [_, a] =>
        match account_balance s a with
        | .ok t => (s, t)
        | .error e => (s, "ERROR: ".data ++ e)
      | _ => (s, "ERROR: Použití: AB číslo/IP".data)
    else (s, "ERROR: Neznámý příkaz '".data ++ cmd ++ ['\''])

/-- `Bank.handle_client` as a function of the successive `recv` chunks: each
iteration strips one received chunk, stops at the first empty result, and
otherwise sends back exactly one `execute_command` response (the one-time
welcome banner is not part of the per-command responses). -/
def handle_client (s : BankState) : List Str → BankState × List Str
  | [] => (s, [])
  | chunk :: rest =>
    let data := pyStrip chunk
    if data = [] then (s, [])
    else
      let p := execute_command s data
      let q := handle_client p.1 rest
      (q.1, p.2 :: q.2)

/-- The persisted-state file as seen by `_load_state`.  The source assigns
`self.next_account_number = data['next_account_number']` (line 63) before
it reads `data['accounts']`, so the failure cases split by where the raise
happens.  `absent`: no file, the load is skipped.  `unreadable`: the raise
happens before the counter assignment — `open`/`json.load` fails, or the
top level is not a dict or lacks a `next_account_number` key — leaving the
fresh state untouched.  `recordNoAccounts`: the stored counter is read and
assigned, then `data['accounts']` raises (key missing, or value not
iterable), so the loaded counter stays while no account is loaded.
`record`: both keys are readable; balances are still raw strings (a
per-entry failure on the other entry keys aborts the loop exactly like an
unparsable balance, which represents it). -/
inductive FileContent where
  | absent
  | unreadable
  | recordNoAccounts (next_account_number : Int)
  | record (next_account_number : Int) (accounts : List (Int × Str))

/-- `Bank._save_state`: the written record. -/
def save_state (s : BankState) : FileContent :=
  .record s.next_account_number (s.accounts.map fun p => (p.1, formatDec p.2))

/-- The account-loading loop of `_load_state`: on the first entry whose
balance fails to parse, the raised exception aborts the loop and the caught
handler keeps whatever was already inserted. -/
def loadLoop (acc : List (Int × Dec)) : List (Int × Str) → List (Int × Dec)
  | [] => acc
  | (n, bs) :: rest =>
    match parseDec bs with
    | some b => loadLoop (dictSet n b acc) rest
    | none => acc

/-- `Bank._load_state` applied to a bank in state `s`. -/
def load_state (c : FileContent) (s : BankState) : BankState :=
  match c with
  | .absent => s
  | .unreadable => s
  | .recordNoAccounts next => { s with next_account_number := next }
  | .record next accs =>
    { s with next_account_number := next, accounts := loadLoop s.accounts accs }

/-- The fresh in-memory state `Bank.__init__` builds before `_load_state`. -/
def initBank (ip : Str) : BankState :=
  { accounts := [], next_account_number := 10001, ip_address := ip }

/-- `Bank.__init__`: fresh state, then `_load_state`. -/
def bankInit (ip : Str) (c : FileContent) : BankState := load_state c (initBank ip)

/-- The five ledger operations, for reachability statements. -/
inductive Op where
  | bc
  | ac
  | ad (a m : Str)
  | aw (a m : Str)
  | ab (a : Str)

def applyOp (s : BankState) : Op → BankState
  | .bc => s
  | .ac => (account_create s).1
  | .ad a m => (account_deposit s a m).1
  | .aw a m => (account_withdrawal s a m).1
  | .ab _ => s

def runOps (s : BankState) (ops : List Op) : BankState := ops.foldl applyOp s

/-- `N` successive `account_create` calls, collecting the responses. -/
def createMany (s : BankState) : Nat → BankState × List Str
  | 0 => (s, [])
  | n + 1 =>
    let p := account_create s
    let q := createMany p.1 n
    (q.1, p.2 :: q.2)

/-- Sequential execution of a list of already-stripped command lines. -/
def execMany (s : BankState) : List Str → List Str
  | [] => []
  | d :: ds =>
    let p := execute_command s d
    p.2 :: execMany p.1 ds

/-- Python `decimal.Decimal`, full value set: finite values (`Dec`), the
two infinities, and quiet or signaling NaNs with their sign and the numeric
value of their payload digits (`str` drops a zero payload, as CPython
does). -/
inductive PyDec where
  | fin (d : Dec)
  | pinf
  | ninf
  | nan (neg signaling : Bool) (payload : Nat)
deriving DecidableEq

/-- The `int` literal `0` of the source's `amount <= 0` comparison, as the
`Decimal` the comparison coerces it to. -/
def pyZero : PyDec := .fin decZero

/-- Python `str.lower()` (ASCII fragment), for the case-insensitive special
forms of the `Decimal` parser. -/
def pyLower (l : Str) : Str := l.map Char.toLower

/-- The `Decimal(s)` string parser over the full value set.  As documented
for `Decimal`, the input is read after leading and trailing whitespace and
all underscores are removed; then an optional sign is followed by
`inf`/`infinity`, by `nan`/`snan` with optional payload digits (all
case-insensitive), or by a finite numeric literal (`parseDec`). -/
def parsePyDec (l : Str) : Option PyDec :=
  let l0 := (pyStrip l).filter (fun c => c != '_')
  let neg := l0.head? == some '-'
  let body := pyLower (if l0.head? == some '-' || l0.head? == some '+' then l0.tail else l0)
  if body = "inf".data ∨ body = "infinity".data then
    some (if neg then .ninf else .pinf)
  else if body.take 3 = "nan".data ∧ (body.drop 3).all isDigitC then
    some (.nan neg false (digitsVal (body.drop 3)))
  else if body.take 4 = "snan".data ∧ (body.drop 4).all isDigitC then
    some (.nan neg true (digitsVal (body.drop 4)))
  else (parseDec l0).map .fin

/-- Python `str(d)` over the full value set. -/
def formatPyDec : PyDec → Str
  | .fin d => formatDec d
  | .pinf => "Infinity".data
  | .ninf => "-Infinity".data
  | .nan neg sig p =>
    (if neg then ['-'] else []) ++ (if sig then "sNaN".data else "NaN".data) ++
      (if p = 0 then [] else natToChars p)

/-- `str(e)` of a `decimal.InvalidOperation` raised by an arithmetic
operation or an ordered comparison under the default traps. -/
def msgInvalidOperation : Str := "[<class 'decimal.InvalidOperation'>]".data

/-- `a < b` on Decimals: an ordered comparison; any NaN operand raises
`InvalidOperation` under the default traps. -/
def pyLt : PyDec → PyDec → Except Str Bool
  | .nan _ _ _, _ => .error msgInvalidOperation
  | _, .nan _ _ _ => .error msgInvalidOperation
  | .pinf, .pinf => .ok false
  | .ninf, .ninf => .ok false
  | _, .pinf => .ok true
  | .pinf, _ => .ok false
  | .ninf, _ => .ok true
  | _, .ninf => .ok false
  | .fin a, .fin b => .ok (decLt a b)

/-- `a <= b` on Decimals: an ordered comparison; any NaN operand raises
`InvalidOperation` under the default traps. -/
def pyLe : PyDec → PyDec → Except Str Bool
  | .nan _ _ _, _ => .error msgInvalidOperation
  | _, .nan _ _ _ => .error msgInvalidOperation
  | .pinf, .pinf => .ok true
  | .ninf, .ninf => .ok true
  | _, .pinf => .ok true
  | .pinf, _ => .ok false
  | .ninf, _ => .ok true
  | _, .ninf => .ok false
  | .fin a, .fin b => .ok (decLe a b)

/-- `a + b` on Decimals: a signaling NaN raises; a quiet NaN propagates;
`Infinity + (-Infinity)` raises; an infinity absorbs everything else;
finite values add exactly. -/
def pyAdd : PyDec → PyDec → Except Str PyDec
  | .nan _ true _, _ => .error msgInvalidOperation
  | _, .nan _ true _ => .error msgInvalidOperation
  | .nan n false p, _ => .ok (.nan n false p)
  | _, .nan n false p => .ok (.nan n false p)
  | .pinf, .ninf => .error msgInvalidOperation
  | .ninf, .pinf => .error msgInvalidOperation
  | .pinf, _ => .ok .pinf
  | _, .pinf => .ok .pinf
  | .ninf, _ => .ok .ninf
  | _, .ninf => .ok .ninf
  | .fin a, .fin b => .ok (.fin (decAdd a b))

/-- `a - b` on Decimals: a signaling NaN raises; a quiet NaN propagates;
`Infinity - Infinity` (either sign) raises; an infinity on either side
otherwise fixes the sign of the result; finite values subtract exactly. -/
def pySub : PyDec → PyDec → Except Str PyDec
  | .nan _ true _, _ => .error msgInvalidOperation
  | _, .nan _ true _ => .error msgInvalidOperation
  | .nan n false p, _ => .ok (.nan n false p)
  | _, .nan n false p => .ok (.nan n false p)
  | .pinf, .pinf => .error msgInvalidOperation
  | .ninf, .ninf => .error msgInvalidOperation
  | .pinf, _ => .ok .pinf
  | _, .pinf => .ok .ninf
  | .ninf, _ => .ok .ninf
  | _, .ninf => .ok .pinf
  | .fin a, .fin b => .ok (.fin (decSub a b))

/-- `BankState` with the full Decimal value set for balances (the type is
unrestricted; reachable balances are finite or `+Infinity`). -/
structure BankStatePy where
  accounts : List (Int × PyDec)
  next_account_number : Int
  ip_address : Str
deriving DecidableEq

/-- Python dict lookup `accounts[n]` / `n in accounts`. -/
def dictGetPy (n : Int) : List (Int × PyDec) → Option PyDec
  | [] => none
  | p :: ps => if p.1 = n then some p.2 else dictGetPy n ps

/-- Python dict update `accounts[n] = v`: replaces in place, appends if new. -/
def dictSetPy (n : Int) (v : PyDec) : List (Int × PyDec) → List (Int × PyDec)
  | [] => [(n, v)]
  | p :: ps => if p.1 = n then (n, v) :: ps else p :: dictSetPy n v ps

def msgInsufficientPy (bal : PyDec) : Str :=
  "Nedostatečný zůstatek (dostupné: ".data ++ formatPyDec bal ++ " Kč)".data

/-- `Bank.account_deposit` over the full Decimal value set: as
`account_deposit`, except that `Decimal(amount_str)` also accepts the
special values, and both the `amount <= 0` comparison (NaN amounts) and
`balance += amount` (signaling NaNs, opposite infinities) may raise
`InvalidOperation`; a raise inside the `try` block reaches the generic
`except` arm before the assignment, so it reports `str(e)` with the ledger
unchanged. -/
def account_deposit_py (s : BankStatePy) (account_full amount_str : Str) :
    BankStatePy × Except Str Str :=
  if '/' ∈ account_full then
    match splitChar '/' account_full with
    | [account_num_str, ip] =>
      match parseInt account_num_str with
      | some account_num =>
        match parsePyDec amount_str with
        | some amount =>
          if ip ≠ s.ip_address then (s, .error (msgNotLocal s.ip_address))
          else
            match pyLe amount pyZero with
            | .error e => (s, .error e)
            | .ok true => (s, .error msgNonPositive)
            | .ok false =>
              match dictGetPy account_num s.accounts with
              | some bal =>
                match pyAdd bal amount with
                | .error e => (s, .error e)
                | .ok nb =>
                  ({ s with accounts := dictSetPy account_num nb s.accounts },
                   .ok ("OK: Vloženo ".data ++ formatPyDec amount ++ " Kč na účet ".data ++
                        account_full ++ ", nový zůstatek: ".data ++ formatPyDec nb ++ " Kč".data))
              | none => (s, .error msgNoAccount)
        | none => (s, .error msgConvSyntax)
      | none => (s, .error msgBadNumOrAmount)
    | _ => (s, .error msgBadNumOrAmount)
  else (s, .error msgBadAccFormat)

/-- `Bank.account_withdrawal` over the full Decimal value set: as
`account_withdrawal`, except that the `amount <= 0` and
`account.balance < amount` comparisons (NaN operands) and
`balance -= amount` (signaling NaNs, `Infinity - Infinity`) may raise
`InvalidOperation`; a raise reaches the generic `except` arm before the
assignment, so it reports `str(e)` with the ledger unchanged. -/
def account_withdrawal_py (s : BankStatePy) (account_full amount_str : Str) :
    BankStatePy × Except Str Str :=
  if '/' ∈ account_full then
    match splitChar '/' account_full with
    | [account_num_str, ip] =>
      match parseInt account_num_str with
      | some account_num =>
        match parsePyDec amount_str with
        | some amount =>
          if ip ≠ s.ip_address then (s, .error (msgNotLocal s.ip_address))
          else
            match pyLe amount pyZero with
            | .error e => (s, .error e)
            | .ok true => (s, .error msgNonPositive)
            | .ok false =>
              match dictGetPy account_num s.accounts with
              | some bal =>
                match pyLt bal amount with
                | .error e => (s, .error e)
                | .ok true => (s, .error (msgInsufficientPy bal))
                | .ok false =>
                  match pySub bal amount with
                  | .error e => (s, .error e)
                  | .ok nb =>
                    ({ s with accounts := dictSetPy account_num nb s.accounts },
                     .ok ("OK: Vybráno ".data ++ formatPyDec amount ++ " Kč z účtu ".data ++
                          account_full ++ ", nový zůstatek: ".data ++ formatPyDec nb ++ " Kč".data))
              | none => (s, .error msgNoAccount)
        | none => (s, .error msgConvSyntax)
      | none => (s, .error msgBadNumOrAmount)
    | _ => (s, .error msgBadNumOrAmount)
  else (s, .error msgBadAccFormat)

/-- Substring test: does `p` occur contiguously in `l`? -/
def strContains (p l : Str) : Bool :=
  (List.range (l.length + 1)).any fun i => (l.drop i).take p.length == p

/-! ### Digit strings -/

theorem digitChar_toNat (d : Nat) (h : d < 10) : (Nat.digitChar d).toNat = 48 + d := by
  interval_cases d <;> rfl

theorem isDigitC_digitChar (d : Nat) (h : d < 10) : isDigitC (Nat.digitChar d) = true := by
  interval_cases d <;> rfl

theorem digit_ne_of_not_digit {c c' : Char} (h : isDigitC c = true) (h' : isDigitC c' = false) :
    c ≠ c' := by
  intro hEq
  rw [hEq] at h
  rw [h] at h'
  exact Bool.noConfusion h'

theorem digitsVal_append_singleton (l : Str) (c : Char) :
    digitsVal (l ++ [c]) = 10 * digitsVal l + (c.toNat - 48) := by
  simp [digitsVal, List.foldl_append]

theorem digitsVal_cons_zero (l : Str) : digitsVal ('0' :: l) = digitsVal l := by
  simp [digitsVal]

theorem digitsVal_replicate_zero (z : Nat) (l : Str) :
    digitsVal (List.replicate z '0' ++ l) = digitsVal l := by
  induction z with
  | zero => simp
  | succ z ih => simpa [List.replicate_succ, digitsVal_cons_zero] using ih

theorem natToCharsAux_val : ∀ fuel n, n ≤ fuel → digitsVal (natToCharsAux fuel n) = n := by
  intro fuel
  induction fuel with
  | zero =>
    intro n hn
    interval_cases n
    rfl
  | succ fuel ih =>
    intro n hn
    match n, hn with
    | 0, _ => rfl
    | k + 1, hn =>
      have hq : (k + 1) / 10 ≤ fuel := by
        have h1 : (k + 1) / 10 < k + 1 := Nat.div_lt_self (by omega) (by omega)
        omega
      have hm : (k + 1) % 10 < 10 := Nat.mod_lt _ (by omega)
      rw [natToCharsAux, digitsVal_append_singleton, ih _ hq, digitChar_toNat _ hm]
      omega

theorem natToCharsAux_digits :
    ∀ fuel n, ∀ c ∈ natToCharsAux fuel n, isDigitC c = true := by
  intro fuel
  induction fuel with
  | zero => intro n c hc; simp [natToCharsAux] at hc
  | succ fuel ih =>
    intro n c hc
    match n with
    | 0 => simp [natToCharsAux] at hc
    | k + 1 =>
      rw [natToCharsAux, List.mem_append] at hc
      rcases hc with hc | hc
      · exact ih _ _ hc
      · rw [List.mem_singleton] at hc
        subst hc
        exact isDigitC_digitChar _ (Nat.mod_lt _ (by omega))

theorem natToChars_val (n : Nat) : digitsVal (natToChars n) = n := by
  unfold natToChars
  split
  · subst ‹n = 0›; rfl
  · exact natToCharsAux_val n n le_rfl

theorem natToChars_digits (n : Nat) : ∀ c ∈ natToChars n, isDigitC c = true := by
  unfold natToChars
  split
  · intro c hc
    rw [List.mem_singleton] at hc
    subst hc
    rfl
  · exact natToCharsAux_digits n n

theorem natToChars_ne_nil (n : Nat) : natToChars n ≠ [] := by
  unfold natToChars
  split
  · simp
  · match n, ‹n ≠ 0› with
    | k + 1, _ =>
      rw [natToCharsAux]
      simp

/-! ### Span of digit prefixes -/

theorem takeWhile_append_of_all {p : Char → Bool} :
    ∀ (w r : Str), (∀ c ∈ w, p c = true) → (∀ c, r.head? = some c → p c = false) →
      (w ++ r).takeWhile p = w ∧ (w ++ r).dropWhile p = r := by
  intro w
  induction w with
  | nil =>
    intro r _ hr
    match r with
    | [] => simp
    | c :: cs => simp [List.takeWhile_cons, List.dropWhile_cons, hr c rfl]
  | cons a w ih =>
    intro r hw hr
    have ha : p a = true := hw a (List.mem_cons_self a w)
    have := ih r (fun c hc => hw c (List.mem_cons_of_mem a hc)) hr
    simp [List.takeWhile_cons, List.dropWhile_cons, ha, this.1, this.2]

theorem spanDigits_append (w r : Str) (hw : ∀ c ∈ w, isDigitC c = true)
    (hr : ∀ c, r.head? = some c → isDigitC c = false) : spanDigits (w ++ r) = (w, r) := by
  have := takeWhile_append_of_all w r hw hr
  simp [spanDigits, this.1, this.2]

theorem spanDigits_all (w : Str) (hw : ∀ c ∈ w, isDigitC c = true) :
    spanDigits w = (w, []) := by
  have := spanDigits_append w [] hw (by intro c hc; simp at hc)
  simpa using this

/-! ### Parsing of formatted integers -/

theorem parseSignedNat_natToChars (n : Nat) : parseSignedNat (natToChars n) = some (n : Int) := by
  obtain ⟨c, tl, hds⟩ := List.exists_cons_of_ne_nil (natToChars_ne_nil n)
  have hc : isDigitC c = true := by
    apply natToChars_digits n
    rw [hds]; exact List.mem_cons_self c tl
  have hnotminus : ¬ (natToChars n).head? = some '-' := by
    rw [hds]
    intro h
    have hcm : c = '-' := by injection h
    rw [hcm] at hc
    exact absurd hc (by decide)
  have hnotplus : ¬ (natToChars n).head? = some '+' := by
    rw [hds]
    intro h
    have hcm : c = '+' := by injection h
    rw [hcm] at hc
    exact absurd hc (by decide)
  rw [parseSignedNat, if_neg hnotminus, if_neg hnotplus, if_pos]
  · rw [natToChars_val]
  · exact ⟨natToChars_ne_nil n, List.all_eq_true.mpr (natToChars_digits n)⟩

theorem parseSignedNat_minus (n : Nat) :
    parseSignedNat ('-' :: natToChars n) = some (-(n : Int)) := by
  rw [parseSignedNat, if_pos (by rfl)]
  rw [List.tail_cons, if_pos]
  · rw [natToChars_val]
  · exact ⟨natToChars_ne_nil n, List.all_eq_true.mpr (natToChars_digits n)⟩

theorem parseSignedNat_plus (n : Nat) :
    parseSignedNat ('+' :: natToChars n) = some ((n : Int)) := by
  rw [parseSignedNat, if_neg (by simp), if_pos (by rfl)]
  rw [List.tail_cons, if_pos]
  · rw [natToChars_val]
  · exact ⟨natToChars_ne_nil n, List.all_eq_true.mpr (natToChars_digits n)⟩

theorem parseSignedNat_expChars (adj : Int) : parseSignedNat (expChars adj) = some adj := by
  unfold expChars intToChars
  by_cases h : 0 ≤ adj
  · rw [if_pos h, if_neg (by omega)]
    rw [parseSignedNat_plus]
    congr 1
    omega
  · rw [if_neg h, if_pos (by omega)]
    rw [parseSignedNat_minus]
    congr 1
    omega

/-! ### The string round trip of `Decimal` -/

theorem head_eq_of_head?_cons {a c : Char} {l : Str} (h : (a :: l).head? = some c) : c = a := by
  rw [List.head?_cons] at h
  exact (Option.some.inj h).symm

theorem head?_cons_ne {a c : Char} {l : Str} (h : a ≠ c) : ¬ (a :: l).head? = some c := by
  intro hEq
  exact h (head_eq_of_head?_cons hEq).symm

theorem parseDecCore_formatBody (neg : Bool) (n : Nat) (e : Int) :
    parseDecCore neg (formatBody (natToChars n) e) =
      some ⟨if neg then -(n : Int) else (n : Int), e⟩ := by
  have hdig : ∀ c ∈ natToChars n, isDigitC c = true := natToChars_digits n
  have hne : natToChars n ≠ [] := natToChars_ne_nil n
  obtain ⟨c0, tl0, hds⟩ := List.exists_cons_of_ne_nil hne
  have hLpos : 0 < (natToChars n).length := by rw [hds]; simp
  by_cases hmain : e ≤ 0 ∧ -6 ≤ e + ((natToChars n).length : Int) - 1
  · by_cases he0 : e = 0
    · -- integer form, no point
      subst he0
      rw [formatBody, if_pos hmain, if_pos rfl, parseDecCore, spanDigits_all _ hdig]
      dsimp only [List.head?_nil]
      rw [if_neg (by intro h; exact Option.noConfusion h),
        if_neg (by intro h; exact Option.noConfusion h)]
      rw [parseDecFinish, if_neg (fun h => hne h.1), if_pos rfl]
      simp [natToChars_val]
    · by_cases hadj : e + ((natToChars n).length : Int) - 1 < 0
      · -- 0.000ddd form
        rw [formatBody, if_pos hmain, if_neg he0, if_pos hadj, parseDecCore]
        have hshape : ('0' :: '.' :: (List.replicate (-e - ((natToChars n).length : Int)).toNat '0'
            ++ natToChars n))
            = ['0'] ++ ('.' :: (List.replicate (-e - ((natToChars n).length : Int)).toNat '0'
              ++ natToChars n)) := rfl
        rw [hshape, spanDigits_append ['0'] _
          (by intro c hc; rw [List.mem_singleton] at hc; subst hc; rfl)
          (by intro c hc; rw [head_eq_of_head?_cons hc]; rfl)]
        dsimp only [List.head?_cons, List.tail_cons]
        rw [if_pos rfl, if_pos rfl]
        rw [spanDigits_all _ (by
          intro c hc
          rcases List.mem_append.mp hc with hc | hc
          · rw [List.eq_of_mem_replicate hc]; rfl
          · exact hdig c hc)]
        dsimp only
        rw [parseDecFinish, if_neg (by intro h; exact List.noConfusion h.1), if_pos rfl]
        have hval : digitsVal (['0'] ++ (List.replicate (-e - ((natToChars n).length : Int)).toNat '0'
            ++ natToChars n)) = n := by
          rw [List.singleton_append, digitsVal_cons_zero, digitsVal_replicate_zero, natToChars_val]
        rw [hval]
        simp only [Option.some.injEq, Dec.mk.injEq, true_and]
        simp only [List.length_append, List.length_replicate]
        push_cast
        omega
      · -- ddd.ddd form
        have hk1 : (1 : Int) ≤ ((natToChars n).length : Int) + e := by omega
        have hkc : ((((natToChars n).length : Int) + e).toNat : Int)
            = ((natToChars n).length : Int) + e := by omega
        have hklt : (((natToChars n).length : Int) + e).toNat < (natToChars n).length := by omega
        have hkpos : 0 < (((natToChars n).length : Int) + e).toNat := by omega
        rw [formatBody, if_pos hmain, if_neg he0, if_neg hadj, parseDecCore]
        rw [spanDigits_append _ _ (fun c hc => hdig c (List.take_subset _ _ hc))
          (by intro c hc; rw [head_eq_of_head?_cons hc]; rfl)]
        dsimp only [List.head?_cons, List.tail_cons]
        rw [if_pos rfl, if_pos rfl]
        rw [spanDigits_all _ (fun c hc => hdig c (List.drop_subset _ _ hc))]
        dsimp only
        rw [parseDecFinish, if_neg (by
          intro h
          have h1 := congrArg List.length h.1
          rw [List.length_take] at h1
          simp only [List.length_nil] at h1
          omega), if_pos rfl]
        rw [List.take_append_drop, natToChars_val]
        simp only [Option.some.injEq, Dec.mk.injEq, true_and]
        rw [List.length_drop]
        omega
  · -- scientific form
    rw [formatBody, if_neg hmain, parseDecCore]
    have hc0 : isDigitC c0 = true := hdig c0 (by rw [hds]; exact List.mem_cons_self _ _)
    match tl0, hds with
    | [], hds =>
      rw [hds]
      have hsci : sciMantissa [c0] = [c0] := rfl
      rw [hsci]
      have hshape : ([c0] : Str) ++ 'E' :: expChars (e + (([c0] : Str).length : Int) - 1)
          = [c0] ++ ('E' :: expChars (e + (([c0] : Str).length : Int) - 1)) := rfl
      rw [hshape, spanDigits_append [c0] _
        (by intro c hc; rw [List.mem_singleton] at hc; subst hc; exact hc0)
        (by intro c hc; rw [head_eq_of_head?_cons hc]; rfl)]
      dsimp only [List.head?_cons, List.tail_cons]
      rw [if_neg (by intro h; exact absurd (Option.some.inj h) (by decide)),
        if_neg (by intro h; exact absurd (Option.some.inj h) (by decide))]
      rw [parseDecFinish, if_neg (by intro h; exact List.noConfusion h.1)]
      rw [if_neg (by intro h; exact List.noConfusion h)]
      dsimp only [List.head?_cons, List.tail_cons]
      rw [if_pos (Or.inr rfl)]
      rw [parseSignedNat_expChars]
      have hval : digitsVal (([c0] : Str) ++ ([] : Str)) = n := by
        rw [List.append_nil]
        have hl : ([c0] : Str) = natToChars n := hds.symm
        rw [hl, natToChars_val]
      rw [hval]
      simp only [Option.some.injEq, Dec.mk.injEq, true_and]
      simp
    | c1 :: tl1, hds =>
      rw [hds]
      have hsci : sciMantissa (c0 :: c1 :: tl1) = c0 :: '.' :: (c1 :: tl1) := rfl
      rw [hsci]
      have hshape : (c0 :: '.' :: (c1 :: tl1)) ++
            'E' :: expChars (e + (((c0 :: c1 :: tl1) : Str).length : Int) - 1)
          = [c0] ++ ('.' :: ((c1 :: tl1) ++
              'E' :: expChars (e + (((c0 :: c1 :: tl1) : Str).length : Int) - 1))) := by
        simp
      rw [hshape, spanDigits_append [c0] _
        (by intro c hc; rw [List.mem_singleton] at hc; subst hc; exact hc0)
        (by intro c hc; rw [head_eq_of_head?_cons hc]; rfl)]
      dsimp only [List.head?_cons, List.tail_cons]
      rw [if_pos rfl, if_pos rfl]
      rw [spanDigits_append (c1 :: tl1) _ (by
          intro c hc
          apply hdig
          rw [hds]
          exact List.mem_cons_of_mem c0 hc)
        (by intro c hc; rw [head_eq_of_head?_cons hc]; rfl)]
      dsimp only
      rw [parseDecFinish, if_neg (by intro h; exact List.noConfusion h.1)]
      rw [if_neg (by intro h; exact List.noConfusion h)]
      dsimp only [List.head?_cons, List.tail_cons]
      rw [if_pos (Or.inr rfl)]
      rw [parseSignedNat_expChars]
      have hval : digitsVal (([c0] : Str) ++ (c1 :: tl1)) = n := by
        have hl : ([c0] : Str) ++ (c1 :: tl1) = natToChars n := by rw [hds]; rfl
        rw [hl, natToChars_val]
      rw [hval]
      simp only [Option.some.injEq, Dec.mk.injEq, true_and]
      simp only [List.length_cons]
      push_cast
      ring

theorem formatBody_head (n : Nat) (e : Int) :
    ∃ c tl, formatBody (natToChars n) e = c :: tl ∧ isDigitC c = true := by
  have hdig : ∀ c ∈ natToChars n, isDigitC c = true := natToChars_digits n
  have hne : natToChars n ≠ [] := natToChars_ne_nil n
  obtain ⟨c0, tl0, hds⟩ := List.exists_cons_of_ne_nil hne
  have hc0 : isDigitC c0 = true := hdig c0 (by rw [hds]; exact List.mem_cons_self _ _)
  have hLpos : 0 < (natToChars n).length := by rw [hds]; simp
  by_cases hmain : e ≤ 0 ∧ -6 ≤ e + ((natToChars n).length : Int) - 1
  · by_cases he0 : e = 0
    · subst he0
      rw [formatBody, if_pos hmain, if_pos rfl, hds]
      exact ⟨c0, tl0, rfl, hc0⟩
    · by_cases hadj : e + ((natToChars n).length : Int) - 1 < 0
      · rw [formatBody, if_pos hmain, if_neg he0, if_pos hadj]
        exact ⟨'0', _, rfl, rfl⟩
      · rw [formatBody, if_pos hmain, if_neg he0, if_neg hadj]
        have hkpos : 0 < (((natToChars n).length : Int) + e).toNat := by omega
        match hk : (((natToChars n).length : Int) + e).toNat, hkpos with
        | k' + 1, _ =>
          rw [hds]
          exact ⟨c0, _, rfl, hc0⟩
  · rw [formatBody, if_neg hmain, hds]
    match tl0 with
    | [] => exact ⟨c0, _, rfl, hc0⟩
    | c1 :: tl1 => exact ⟨c0, _, rfl, hc0⟩

theorem parseDec_formatDec (d : Dec) : parseDec (formatDec d) = some d := by
  obtain ⟨m, e⟩ := d
  obtain ⟨c, tl, hbody, hc⟩ := formatBody_head m.natAbs e
  by_cases hm : m < 0
  · rw [formatDec]
    dsimp only
    rw [if_pos hm, parseDec]
    dsimp only [List.head?_cons, List.tail_cons]
    rw [if_pos rfl, parseDecCore_formatBody, if_pos rfl]
    simp only [Option.some.injEq, Dec.mk.injEq, and_true]
    omega
  · rw [formatDec]
    dsimp only
    rw [if_neg hm, parseDec, hbody]
    dsimp only [List.head?_cons, List.tail_cons]
    rw [if_neg (fun h => absurd (Option.some.inj h) (digit_ne_of_not_digit hc (by decide))),
      if_neg (fun h => absurd (Option.some.inj h) (digit_ne_of_not_digit hc (by decide)))]
    rw [← hbody, parseDecCore_formatBody,
      if_neg (fun h => Bool.noConfusion h)]
    simp only [Option.some.injEq, Dec.mk.injEq, and_true]
    omega

/-! ### Tokenizer lemmas -/

theorem splitWsAux_word (w : Str) : ∀ (rest acc : Str), (∀ c ∈ w, isWS c = false) →
    splitWsAux (w ++ rest) acc = splitWsAux rest (w.reverse ++ acc) := by
  induction w with
  | nil => intro rest acc _; simp
  | cons c w ih =>
    intro rest acc hw
    have hc : isWS c = false := hw c (List.mem_cons_self _ _)
    rw [List.cons_append, splitWsAux]
    simp only [hc, Bool.false_eq_true, if_false]
    rw [ih rest (c :: acc) (fun c' hc' => hw c' (List.mem_cons_of_mem _ hc'))]
    simp [List.append_assoc]

theorem splitWsAux_ws {c : Char} (rest acc : Str) (hc : isWS c = true) (hacc : acc ≠ []) :
    splitWsAux (c :: rest) acc = acc.reverse :: splitWsAux rest [] := by
  rw [splitWsAux]
  simp [hc, hacc]

theorem splitWsAux_final (w : Str) : ∀ (acc : Str), (∀ c ∈ w, isWS c = false) →
    ¬(w = [] ∧ acc = []) → splitWsAux w acc = [acc.reverse ++ w] := by
  induction w with
  | nil =>
    intro acc _ hne
    rw [splitWsAux, if_neg (fun h => hne ⟨rfl, h⟩)]
    simp
  | cons c w ih =>
    intro acc hw hne
    have hc : isWS c = false := hw c (List.mem_cons_self _ _)
    rw [splitWsAux]
    simp only [hc, Bool.false_eq_true, if_false]
    rw [ih (c :: acc) (fun c' hc' => hw c' (List.mem_cons_of_mem _ hc')) (by simp)]
    simp

theorem pySplitWs_three (t1 t2 t3 : Str)
    (h1 : t1 ≠ []) (hw1 : ∀ c ∈ t1, isWS c = false)
    (h2 : t2 ≠ []) (hw2 : ∀ c ∈ t2, isWS c = false)
    (h3 : t3 ≠ []) (hw3 : ∀ c ∈ t3, isWS c = false) :
    pySplitWs (t1 ++ ' ' :: (t2 ++ ' ' :: t3)) = [t1, t2, t3] := by
  rw [pySplitWs, splitWsAux_word t1 _ _ hw1, List.append_nil,
    splitWsAux_ws _ _ (show isWS ' ' = true from rfl) (by simpa using h1), List.reverse_reverse,
    splitWsAux_word t2 _ _ hw2, List.append_nil,
    splitWsAux_ws _ _ (show isWS ' ' = true from rfl) (by simpa using h2), List.reverse_reverse,
    splitWsAux_final t3 [] hw3 (fun h => h3 h.1)]
  rfl

theorem pySplitWs_two (t1 t2 : Str)
    (h1 : t1 ≠ []) (hw1 : ∀ c ∈ t1, isWS c = false)
    (h2 : t2 ≠ []) (hw2 : ∀ c ∈ t2, isWS c = false) :
    pySplitWs (t1 ++ ' ' :: t2) = [t1, t2] := by
  rw [pySplitWs, splitWsAux_word t1 _ _ hw1, List.append_nil,
    splitWsAux_ws _ _ (show isWS ' ' = true from rfl) (by simpa using h1), List.reverse_reverse,
    splitWsAux_final t2 [] hw2 (fun h => h2 h.1)]
  rfl

theorem splitChar_not_mem (sep : Char) : ∀ (l : Str), sep ∉ l → splitChar sep l = [l] := by
  intro l
  induction l with
  | nil => intro _; rfl
  | cons c cs ih =>
    intro h
    simp only [List.mem_cons, not_or] at h
    rw [splitChar, if_neg (fun hc => h.1 hc.symm), ih h.2]

theorem splitChar_append (sep : Char) (w r : Str) (hw : sep ∉ w) :
    splitChar sep (w ++ sep :: r) = w :: splitChar sep r := by
  induction w with
  | nil => simp [splitChar]
  | cons c w ih =>
    simp only [List.mem_cons, not_or] at hw
    rw [List.cons_append, splitChar, if_neg (fun hc => hw.1 hc.symm), ih hw.2]

theorem dropWhile_eq_self_of_head {l : Str}
    (hhead : ∀ c, l.head? = some c → isWS c = false) : l.dropWhile isWS = l := by
  cases l with
  | nil => rfl
  | cons c cs =>
    rw [List.dropWhile_cons]
    simp [hhead c rfl]

theorem pyStrip_eq_self (l : Str) (hhead : ∀ c, l.head? = some c → isWS c = false)
    (hlast : ∀ c, l.getLast? = some c → isWS c = false) : pyStrip l = l := by
  rw [pyStrip, dropWhile_eq_self_of_head hhead,
    dropWhile_eq_self_of_head (by
      intro c hc
      rw [List.head?_reverse] at hc
      exact hlast c hc), List.reverse_reverse]

theorem getLast?_append_of_ne_nil {a b : Str} (hb : b ≠ []) :
    (a ++ b).getLast? = b.getLast? := by
  rw [← List.head?_reverse, ← List.head?_reverse, List.reverse_append]
  cases hr : b.reverse with
  | nil => exact absurd (by simpa using hr) hb
  | cons c cs => simp

/-! ### Reachability machinery -/

theorem runOps_inv (P : BankState → Prop) (hstep : ∀ s op, P s → P (applyOp s op)) :
    ∀ (ops : List Op) (s : BankState), P s → P (runOps s ops) := by
  intro ops
  induction ops with
  | nil => intro s h; exact h
  | cons op ops ih =>
    intro s h
    rw [show runOps s (op :: ops) = runOps (applyOp s op) ops from rfl]
    exact ih _ (hstep s op h)

theorem createMany_resp (s : BankState) : ∀ (N : Nat),
    (createMany s N).2 = (List.range N).map
      (fun i : Nat => intToChars (s.next_account_number + (i : Int)) ++ '/' :: s.ip_address) := by
  intro N
  induction N generalizing s with
  | zero => rfl
  | succ N ih =>
    rw [createMany]
    have hnext : (account_create s).1.next_account_number = s.next_account_number + 1 := rfl
    have hip : (account_create s).1.ip_address = s.ip_address := rfl
    have hresp : (account_create s).2 = intToChars s.next_account_number ++ '/' :: s.ip_address := rfl
    rw [List.range_succ_eq_map, List.map_cons, List.map_map]
    dsimp only
    rw [ih (account_create s).1, hnext, hip, hresp]
    congr 1
    · simp
    · apply List.map_congr_left
      intro i _
      have : s.next_account_number + 1 + (i : Int) = s.next_account_number + ((i + 1 : Nat) : Int) := by
        push_cast
        ring
      simp only [Function.comp]
      rw [this]

/-! ### Dictionary (association-list) lemmas -/

theorem dictGet_mem : ∀ {l : List (Int × Dec)} {n : Int} {b : Dec},
    dictGet n l = some b → (n, b) ∈ l := by
  intro l
  induction l with
  | nil => intro n b h; exact Option.noConfusion h
  | cons p ps ih =>
    intro n b h
    rw [dictGet] at h
    split at h
    · obtain ⟨p1, p2⟩ := p
      rename_i hpn
      simp only at hpn
      subst hpn
      have hb := Option.some.inj h
      subst hb
      exact List.mem_cons_self _ _
    · exact List.mem_cons_of_mem _ (ih h)

theorem dictSet_mem : ∀ {l : List (Int × Dec)} {n : Int} {v : Dec} {p : Int × Dec},
    p ∈ dictSet n v l → p = (n, v) ∨ p ∈ l := by
  intro l
  induction l with
  | nil =>
    intro n v p h
    rw [dictSet, List.mem_singleton] at h
    exact Or.inl h
  | cons q qs ih =>
    intro n v p h
    rw [dictSet] at h
    split at h
    · rcases List.mem_cons.mp h with h | h
      · exact Or.inl h
      · exact Or.inr (List.mem_cons_of_mem _ h)
    · rcases List.mem_cons.mp h with h | h
      · exact Or.inr (h ▸ List.mem_cons_self _ _)
      · rcases ih h with h | h
        · exact Or.inl h
        · exact Or.inr (List.mem_cons_of_mem _ h)

theorem dictSet_append {n : Int} {v : Dec} :
    ∀ {l : List (Int × Dec)}, n ∉ l.map Prod.fst → dictSet n v l = l ++ [(n, v)] := by
  intro l
  induction l with
  | nil => intro _; rfl
  | cons q qs ih =>
    intro h
    simp only [List.map_cons, List.mem_cons, not_or] at h
    rw [dictSet, if_neg (fun hq => h.1 hq.symm), ih h.2]
    rfl

/-! ### Order and sign lemmas for `Dec` -/

theorem decLe_zero_left_iff (a : Dec) : decLe decZero a = true ↔ 0 ≤ a.m := by
  simp only [decLe, alignL, alignR, decZero, decide_eq_true_eq, zero_mul]
  constructor
  · intro h
    by_contra hneg
    push_neg at hneg
    have hpow : (0 : Int) < 10 ^ (a.e - min (0 : Int) a.e).toNat := by positivity
    have := mul_neg_of_neg_of_pos hneg hpow
    linarith
  · intro h
    have hpow : (0 : Int) ≤ 10 ^ (a.e - min (0 : Int) a.e).toNat := by positivity
    exact mul_nonneg h hpow

theorem decLe_zero_right_false {a : Dec} (h : decLe a decZero = false) : 0 < a.m := by
  simp only [decLe, alignL, alignR, decZero, decide_eq_false_iff_not, not_le, zero_mul] at h
  by_contra hc
  push_neg at hc
  have hpow : (0 : Int) ≤ 10 ^ (a.e - min a.e (0 : Int)).toNat := by positivity
  nlinarith

theorem decAdd_nonneg {a b : Dec} (ha : 0 ≤ a.m) (hb : 0 ≤ b.m) : 0 ≤ (decAdd a b).m := by
  simp only [decAdd, alignL, alignR]
  have h1 : (0 : Int) ≤ 10 ^ (a.e - min a.e b.e).toNat := by positivity
  have h2 : (0 : Int) ≤ 10 ^ (b.e - min a.e b.e).toNat := by positivity
  nlinarith

theorem decSub_nonneg {bal amt : Dec} (h : decLt bal amt = false) : 0 ≤ (decSub bal amt).m := by
  simp only [decLt, alignL, alignR, decide_eq_false_iff_not, not_lt] at h
  simp only [decSub, decAdd, decNeg, alignL, alignR]
  simp only [neg_mul]
  omega

theorem decSub_eqv_zero {bal amt : Dec} (h : decEqv bal amt = true) : (decSub bal amt).m = 0 := by
  simp only [decEqv, alignL, alignR, decide_eq_true_eq] at h
  simp only [decSub, decAdd, decNeg, alignL, alignR]
  simp only [neg_mul]
  omega

/-! ### Persistence lemmas -/

theorem loadLoop_format :
    ∀ (l acc : List (Int × Dec)), (l.map Prod.fst).Nodup →
      (∀ p ∈ l, p.1 ∉ acc.map Prod.fst) →
      loadLoop acc (l.map fun p => (p.1, formatDec p.2)) = acc ++ l := by
  intro l
  induction l with
  | nil => intro acc _ _; simp [loadLoop]
  | cons q l ih =>
    intro acc hnodup hacc
    obtain ⟨n, b⟩ := q
    simp only [List.map_cons] at hnodup ⊢
    rw [loadLoop, parseDec_formatDec]
    dsimp only
    have hn : n ∉ acc.map Prod.fst := hacc (n, b) (List.mem_cons_self _ _)
    rw [dictSet_append hn]
    have hnodup' := List.nodup_cons.mp hnodup
    rw [ih (acc ++ [(n, b)]) hnodup'.2 (by
      intro p hp
      simp only [List.map_append, List.mem_append, List.map_cons, List.map_nil,
        List.mem_singleton, not_or]
      refine ⟨hacc p (List.mem_cons_of_mem _ hp), ?_⟩
      intro hpn
      exact hnodup'.1 (hpn ▸ List.mem_map_of_mem Prod.fst hp))]
    simp

theorem loadLoop_takeWhile :
    ∀ (accs : List (Int × Str)) (acc : List (Int × Dec)),
      loadLoop acc accs =
        (accs.takeWhile fun p => (parseDec p.2).isSome).foldl
          (fun m p =>
            match parseDec p.2 with
            | some b => dictSet p.1 b m
            | none => m) acc := by
  intro accs
  induction accs with
  | nil => intro acc; rfl
  | cons q accs ih =>
    intro acc
    obtain ⟨n, bs⟩ := q
    rw [loadLoop]
    cases hp : parseDec bs with
    | none => simp [List.takeWhile_cons, hp]
    | some b =>
      rw [List.takeWhile_cons]
      simp only [hp, Option.isSome_some, if_true, List.foldl_cons]
      rw [ih]

/-! ### Structural lemmas for deposits and withdrawals -/

theorem account_deposit_spec (s : BankState) (a m : Str) :
    (∃ e, account_deposit s a m = (s, .error e)) ∨
    (∃ n bal amt t,
      dictGet n s.accounts = some bal ∧ parseDec m = some amt ∧
      decLe amt decZero = false ∧
      account_deposit s a m =
        ({ s with accounts := dictSet n (decAdd bal amt) s.accounts }, .ok t)) := by
  unfold account_deposit
  split
  · split
    · rename_i ns ip
      split
      · rename_i n heq2
        split
        · rename_i amt heq3
          split
          · exact Or.inl ⟨_, rfl⟩
          · split
            · exact Or.inl ⟨_, rfl⟩
            · rename_i hip hle
              split
              · rename_i bal heq4
                right
                refine ⟨n, bal, amt, _, heq4, heq3, ?_, rfl⟩
                simpa using hle
              · exact Or.inl ⟨_, rfl⟩
        · exact Or.inl ⟨_, rfl⟩
      · exact Or.inl ⟨_, rfl⟩
    · exact Or.inl ⟨_, rfl⟩
  · exact Or.inl ⟨_, rfl⟩

theorem account_withdrawal_spec (s : BankState) (a m : Str) :
    (∃ e, account_withdrawal s a m = (s, .error e)) ∨
    (∃ n bal amt t,
      dictGet n s.accounts = some bal ∧ parseDec m = some amt ∧
      decLe amt decZero = false ∧ decLt bal amt = false ∧
      account_withdrawal s a m =
        ({ s with accounts := dictSet n (decSub bal amt) s.accounts }, .ok t)) := by
  unfold account_withdrawal
  split
  · split
    · rename_i ns ip
      split
      · rename_i n heq2
        split
        · rename_i amt heq3
          split
          · exact Or.inl ⟨_, rfl⟩
          · split
            · exact Or.inl ⟨_, rfl⟩
            · rename_i hip hle
              split
              · rename_i bal heq4
                split
                · exact Or.inl ⟨_, rfl⟩
                · rename_i hlt
                  right
                  refine ⟨n, bal, amt, _, heq4, heq3, ?_, ?_, rfl⟩
                  · simpa using hle
                  · simpa using hlt
              · exact Or.inl ⟨_, rfl⟩
        · exact Or.inl ⟨_, rfl⟩
      · exact Or.inl ⟨_, rfl⟩
    · exact Or.inl ⟨_, rfl⟩
  · exact Or.inl ⟨_, rfl⟩

theorem account_deposit_err {s : BankState} {a m : Str} {e : Str}
    (h : (account_deposit s a m).2 = .error e) : (account_deposit s a m).1 = s := by
  rcases account_deposit_spec s a m with ⟨e', hp⟩ | ⟨n, bal, amt, t, _, _, _, hp⟩
  · rw [hp]
  · rw [hp] at h
    exact absurd h (by simp)

theorem account_withdrawal_err {s : BankState} {a m : Str} {e : Str}
    (h : (account_withdrawal s a m).2 = .error e) : (account_withdrawal s a m).1 = s := by
  rcases account_withdrawal_spec s a m with ⟨e', hp⟩ | ⟨n, bal, amt, t, _, _, _, _, hp⟩
  · rw [hp]
  · rw [hp] at h
    exact absurd h (by simp)

/-! ### Claims -/

/-- C7: persistence round trip — for every ledger state (with the unique
account numbers every Python dict guarantees), writing it with `_save_state`
and reading the record back into a fresh ledger yields exactly the same
accounts (numbers and balances, with no precision loss) and the same
`next_account_number`. -/
theorem c7_save_load_roundtrip :
    ∀ (s : BankState), (s.accounts.map Prod.fst).Nodup →
      load_state (save_state s) (initBank s.ip_address) = s := by
  intro s h
  obtain ⟨accounts, next, ip⟩ := s
  simp only [save_state, load_state, initBank]
  rw [loadLoop_format accounts [] h (by simp)]
  simp

/-- Witness for C7 at a state exercising the plain, fractional and
scientific balance formats. -/
theorem c7_save_load_roundtrip_witness :
    load_state
      (save_state ⟨[(10001, ⟨605, -1⟩), (10002, ⟨1, -8⟩), (10003, ⟨25, 1⟩)], 10004,
        "1.2.3.4".data⟩)
      (initBank ("1.2.3.4".data))
      = ⟨[(10001, ⟨605, -1⟩), (10002, ⟨1, -8⟩), (10003, ⟨25, 1⟩)], 10004, "1.2.3.4".data⟩ :=
  c7_save_load_roundtrip
    ⟨[(10001, ⟨605, -1⟩), (10002, ⟨1, -8⟩), (10003, ⟨25, 1⟩)], 10004, "1.2.3.4".data⟩
    (by decide)

/-- C9 counterexample: a readable record whose second account entry has an
unparsable balance leaves the first account and the loaded counter in the
ledger, so a failed load does not leave the ledger empty. -/
theorem c9_counterexample :
    (bankInit ("1.2.3.4".data)
        (.record 99 [(10001, "5".data), (10002, "x".data)])).accounts = [(10001, ⟨5, 0⟩)] ∧
    ¬ (bankInit ("1.2.3.4".data)
        (.record 99 [(10001, "5".data), (10002, "x".data)])).accounts = [] ∧
    ¬ (bankInit ("1.2.3.4".data)
        (.record 99 [(10001, "5".data), (10002, "x".data)])).next_account_number = 10001 := by
  exact ⟨rfl, by decide, by decide⟩

/-- C9 (amended): construction never crashes.  An absent file, or one whose
reading fails before the counter assignment at line 63 (unreadable file,
JSON syntax error, top level without a `next_account_number`), leaves the
fresh ledger: no accounts, counter 10001.  Once the stored counter is read
it is installed even when the `accounts` key then fails, leaving the loaded
counter with no accounts.  A full record installs its stored counter and
exactly the longest prefix of account entries whose balances parse —
entries from the first failure on are dropped, but earlier ones remain. -/
theorem c9_amended_load_behavior :
    ∀ (ip : Str) (c : FileContent),
      (c = FileContent.absent → bankInit ip c = initBank ip) ∧
      (c = FileContent.unreadable → bankInit ip c = initBank ip) ∧
      (initBank ip).accounts = [] ∧ (initBank ip).next_account_number = 10001 ∧
      (∀ next, c = FileContent.recordNoAccounts next →
        (bankInit ip c).next_account_number = next ∧ (bankInit ip c).accounts = []) ∧
      (∀ next accs, c = FileContent.record next accs →
        (bankInit ip c).next_account_number = next ∧
        (bankInit ip c).accounts =
          (accs.takeWhile fun p => (parseDec p.2).isSome).foldl
            (fun mp p =>
              match parseDec p.2 with
              | some b => dictSet p.1 b mp
              | none => mp) []) := by
  intro ip c
  refine ⟨?_, ?_, rfl, rfl, ?_, ?_⟩
  · intro h; subst h; rfl
  · intro h; subst h; rfl
  · intro next h; subst h; exact ⟨rfl, rfl⟩
  · intro next accs h
    subst h
    refine ⟨rfl, ?_⟩
    rw [show (bankInit ip (.record next accs)).accounts = loadLoop [] accs from rfl]
    exact loadLoop_takeWhile accs []

/-- Witness for C9 (amended): an absent file gives the fresh ledger; a file
holding only the counter 99 keeps counter 99 with no accounts; a partly bad
record keeps its stored counter. -/
theorem c9_amended_load_behavior_witness :
    bankInit ("1.2.3.4".data) FileContent.absent = initBank ("1.2.3.4".data) ∧
    ((bankInit ("1.2.3.4".data) (FileContent.recordNoAccounts 99)).next_account_number = 99 ∧
      (bankInit ("1.2.3.4".data) (FileContent.recordNoAccounts 99)).accounts = []) ∧
    (bankInit ("1.2.3.4".data)
      (.record 99 [(10001, "5".data), (10002, "x".data)])).next_account_number = 99 :=
  ⟨(c9_amended_load_behavior ("1.2.3.4".data) FileContent.absent).1 rfl,
   (c9_amended_load_behavior ("1.2.3.4".data)
        (FileContent.recordNoAccounts 99)).2.2.2.2.1 99 rfl,
   ((c9_amended_load_behavior ("1.2.3.4".data)
        (.record 99 [(10001, "5".data), (10002, "x".data)])).2.2.2.2.2
      99 [(10001, "5".data), (10002, "x".data)] rfl).1⟩

/-- C10: atomicity on every error path — whenever a deposit or a withdrawal
raises (returns an error), the entire ledger state (accounts, balances and
`next_account_number`) is exactly the state before the call. -/
theorem c10_error_atomicity :
    ∀ (s : BankState) (a m : Str),
      (∀ e, (account_deposit s a m).2 = Except.error e → (account_deposit s a m).1 = s) ∧
      (∀ e, (account_withdrawal s a m).2 = Except.error e → (account_withdrawal s a m).1 = s) :=
  fun _ _ _ =>
    ⟨fun _ h => account_deposit_err h, fun _ h => account_withdrawal_err h⟩

/-- Witness for C10: a malformed deposit and an insufficient-funds
withdrawal both leave the state untouched. -/
theorem c10_error_atomicity_witness :
    (account_deposit (initBank ("1.2.3.4".data)) ("x".data) ("1".data)).1
        = initBank ("1.2.3.4".data) ∧
    (account_withdrawal ⟨[(10001, ⟨60, 0⟩)], 10002, "1.2.3.4".data⟩
        ("10001/1.2.3.4".data) ("1000".data)).1
        = ⟨[(10001, ⟨60, 0⟩)], 10002, "1.2.3.4".data⟩ :=
  ⟨(c10_error_atomicity (initBank ("1.2.3.4".data)) ("x".data) ("1".data)).1
      msgBadAccFormat rfl,
   (c10_error_atomicity ⟨[(10001, ⟨60, 0⟩)], 10002, "1.2.3.4".data⟩
      ("10001/1.2.3.4".data) ("1000".data)).2 (msgInsufficient ⟨60, 0⟩) rfl⟩

/-- C8 counterexample: two newline-terminated command lines delivered in one
`recv` chunk produce a single response (the whole chunk is parsed as one
command), not two. -/
theorem c8_counterexample :
    (handle_client (initBank ("1.2.3.4".data)) [("AC\nAC\n".data)]).2
        = [("10001/1.2.3.4".data)] ∧
    ¬ (handle_client (initBank ("1.2.3.4".data)) [("AC\nAC\n".data)]).2.length = 2 := by
  exact ⟨rfl, by decide⟩

/-- C8 (amended): the handler sends exactly one response per received chunk,
stopping at the first chunk that strips to the empty string; each response
is `execute_command` of the stripped chunk, with the state threaded through.
Only when each command line arrives in its own chunk does this coincide with
one response per line. -/
theorem c8_amended_chunk_responses :
    ∀ (s : BankState) (chunks : List Str),
      (handle_client s chunks).2
        = execMany s ((chunks.takeWhile fun ch => !(pyStrip ch).isEmpty).map pyStrip) ∧
      (handle_client s chunks).2.length
        = (chunks.takeWhile fun ch => !(pyStrip ch).isEmpty).length := by
  intro s chunks
  induction chunks generalizing s with
  | nil => exact ⟨rfl, rfl⟩
  | cons ch chunks ih =>
    by_cases h : pyStrip ch = []
    · have hcl : handle_client s (ch :: chunks) = (s, []) := by
        rw [handle_client]
        simp only []
        rw [if_pos h]
      rw [hcl, List.takeWhile_cons, if_neg (by simp [h])]
      exact ⟨rfl, rfl⟩
    · have hp : (!(pyStrip ch).isEmpty) = true := by
        cases hq : pyStrip ch with
        | nil => exact absurd hq h
        | cons c cs => rfl
      have hcl : handle_client s (ch :: chunks)
          = ((handle_client (execute_command s (pyStrip ch)).1 chunks).1,
             (execute_command s (pyStrip ch)).2
               :: (handle_client (execute_command s (pyStrip ch)).1 chunks).2) := by
        rw [handle_client]
        simp only []
        rw [if_neg h]
      obtain ⟨ih1, ih2⟩ := ih (execute_command s (pyStrip ch)).1
      rw [hcl, List.takeWhile_cons, if_pos hp, List.map_cons]
      constructor
      · rw [execMany]
        simp only []
        rw [← ih1]
      · simp only [List.length_cons]
        rw [ih2]


/-- C2: non-negativity invariant — in every ledger state reachable from the
fresh empty state by any sequence of the five operations, every account
balance is `≥ 0` in the `Decimal` order; and a withdrawal that would drive a
balance negative is rejected with the insufficient-funds error and leaves
the whole state (hence that balance) unchanged. -/
theorem c2_nonneg_invariant :
    (∀ (ip : Str) (ops : List Op) (p : Int × Dec),
        p ∈ (runOps (initBank ip) ops).accounts → decLe decZero p.2 = true) ∧
    (∀ (s : BankState) (a m ns : Str) (n : Int) (bal amt : Dec),
        '/' ∈ a → splitChar '/' a = [ns, s.ip_address] → parseInt ns = some n →
        parseDec m = some amt → decLe amt decZero = false →
        dictGet n s.accounts = some bal → decLt bal amt = true →
        account_withdrawal s a m = (s, Except.error (msgInsufficient bal))) := by
  constructor
  · intro ip ops
    have hstep : ∀ (s : BankState) (op : Op),
        (∀ p ∈ s.accounts, 0 ≤ p.2.m) → (∀ p ∈ (applyOp s op).accounts, 0 ≤ p.2.m) := by
      intro s op hP
      cases op with
      | bc => exact hP
      | ab a => exact hP
      | ac =>
        intro p hp
        have hp' : p ∈ dictSet s.next_account_number decZero s.accounts := hp
        rcases dictSet_mem hp' with h | h
        · rw [h]
          exact le_refl 0
        · exact hP p h
      | ad a m =>
        intro p hp
        rcases account_deposit_spec s a m with ⟨e, hq⟩ | ⟨n, bal, amt, t, hget, _, hle, hq⟩
        · rw [show applyOp s (.ad a m) = (account_deposit s a m).1 from rfl, hq] at hp
          exact hP p hp
        · rw [show applyOp s (.ad a m) = (account_deposit s a m).1 from rfl, hq] at hp
          dsimp only at hp
          rcases dictSet_mem hp with h | h
          · rw [h]
            exact decAdd_nonneg (hP (n, bal) (dictGet_mem hget))
              (le_of_lt (decLe_zero_right_false hle))
          · exact hP p h
      | aw a m =>
        intro p hp
        rcases account_withdrawal_spec s a m with
          ⟨e, hq⟩ | ⟨n, bal, amt, t, hget, _, hle, hlt, hq⟩
        · rw [show applyOp s (.aw a m) = (account_withdrawal s a m).1 from rfl, hq] at hp
          exact hP p hp
        · rw [show applyOp s (.aw a m) = (account_withdrawal s a m).1 from rfl, hq] at hp
          dsimp only at hp
          rcases dictSet_mem hp with h | h
          · rw [h]
            exact decSub_nonneg hlt
          · exact hP p h
    have h0 : ∀ p ∈ (initBank ip).accounts, 0 ≤ p.2.m := by
      intro p hp
      simp [initBank] at hp
    have hinv := runOps_inv (fun s => ∀ p ∈ s.accounts, 0 ≤ p.2.m) hstep ops (initBank ip) h0
    intro p hp
    rw [decLe_zero_left_iff]
    exact hinv p hp
  · intro s a m ns n bal amt hmem hsplit hparse hparsem hle hget hlt
    unfold account_withdrawal
    rw [if_pos hmem, hsplit]
    dsimp only
    rw [hparse]
    dsimp only
    rw [hparsem]
    dsimp only
    rw [if_neg (show ¬ s.ip_address ≠ s.ip_address from fun hne => hne rfl)]
    rw [if_neg (show ¬ decLe amt decZero = true from by simp [hle])]
    rw [hget]
    dsimp only
    rw [if_pos hlt]

/-- Witness for C2: a reached balance is nonnegative, and an overdraft on a
60-balance account is rejected with the insufficient-funds message. -/
theorem c2_nonneg_invariant_witness :
    decLe decZero ((10001, (⟨60, 0⟩ : Dec)) : Int × Dec).2 = true ∧
    account_withdrawal ⟨[(10001, ⟨60, 0⟩)], 10002, "1.2.3.4".data⟩
        ("10001/1.2.3.4".data) ("1000".data)
      = (⟨[(10001, ⟨60, 0⟩)], 10002, "1.2.3.4".data⟩,
         Except.error (msgInsufficient ⟨60, 0⟩)) :=
  ⟨c2_nonneg_invariant.1 ("1.2.3.4".data)
      [Op.ac, Op.ad ("10001/1.2.3.4".data) ("60".data)] (10001, ⟨60, 0⟩) (by decide),
   c2_nonneg_invariant.2 ⟨[(10001, ⟨60, 0⟩)], 10002, "1.2.3.4".data⟩
      ("10001/1.2.3.4".data) ("1000".data) ("10001".data) 10001 ⟨60, 0⟩ ⟨1000, 0⟩
      (by decide) rfl rfl rfl rfl rfl rfl⟩

/-- C3: allocation invariant — in every reachable state the counter strictly
dominates every stored account number; each `account_create` increments the
counter exactly once; and `N` successive creations return exactly the ids
built from `next, next+1, ..., next+N-1`, a pairwise-distinct set of numbers
all `≥` the counter's starting value. -/
theorem c3_allocation_invariant :
    (∀ (ip : Str) (ops : List Op) (p : Int × Dec),
        p ∈ (runOps (initBank ip) ops).accounts →
        p.1 < (runOps (initBank ip) ops).next_account_number) ∧
    (∀ s : BankState, (account_create s).1.next_account_number = s.next_account_number + 1) ∧
    (∀ (s : BankState) (N : Nat),
      (createMany s N).2 = (List.range N).map
        (fun i : Nat => intToChars (s.next_account_number + (i : Int)) ++ '/' :: s.ip_address) ∧
      ((List.range N).map
        (fun i : Nat => s.next_account_number + (i : Int))).Nodup ∧
      ∀ x ∈ (List.range N).map (fun i : Nat => s.next_account_number + (i : Int)),
        s.next_account_number ≤ x) := by
  refine ⟨?_, fun _ => rfl, ?_⟩
  · intro ip ops
    have hstep : ∀ (s : BankState) (op : Op),
        (∀ p ∈ s.accounts, p.1 < s.next_account_number) →
        (∀ p ∈ (applyOp s op).accounts, p.1 < (applyOp s op).next_account_number) := by
      intro s op hP
      cases op with
      | bc => exact hP
      | ab a => exact hP
      | ac =>
        intro p hp
        have hp' : p ∈ dictSet s.next_account_number decZero s.accounts := hp
        have hnext : (applyOp s .ac).next_account_number = s.next_account_number + 1 := rfl
        rw [hnext]
        rcases dictSet_mem hp' with h | h
        · rw [h]
          omega
        · have := hP p h
          omega
      | ad a m =>
        intro p hp
        rcases account_deposit_spec s a m with ⟨e, hq⟩ | ⟨n, bal, amt, t, hget, _, _, hq⟩
        · rw [show applyOp s (.ad a m) = (account_deposit s a m).1 from rfl, hq] at hp ⊢
          exact hP p hp
        · rw [show applyOp s (.ad a m) = (account_deposit s a m).1 from rfl, hq] at hp ⊢
          dsimp only at hp ⊢
          rcases dictSet_mem hp with h | h
          · rw [h]
            exact hP (n, bal) (dictGet_mem hget)
          · exact hP p h
      | aw a m =>
        intro p hp
        rcases account_withdrawal_spec s a m with
          ⟨e, hq⟩ | ⟨n, bal, amt, t, hget, _, _, _, hq⟩
        · rw [show applyOp s (.aw a m) = (account_withdrawal s a m).1 from rfl, hq] at hp ⊢
          exact hP p hp
        · rw [show applyOp s (.aw a m) = (account_withdrawal s a m).1 from rfl, hq] at hp ⊢
          dsimp only at hp ⊢
          rcases dictSet_mem hp with h | h
          · rw [h]
            exact hP (n, bal) (dictGet_mem hget)
          · exact hP p h
    have h0 : ∀ p ∈ (initBank ip).accounts, p.1 < (initBank ip).next_account_number := by
      intro p hp
      simp [initBank] at hp
    exact runOps_inv
      (fun s => ∀ p ∈ s.accounts, p.1 < s.next_account_number) hstep ops (initBank ip) h0
  · intro s N
    refine ⟨createMany_resp s N, ?_, ?_⟩
    · apply List.Nodup.map
      · intro i j hij
        dsimp only at hij
        have hcast : (i : Int) = (j : Int) := by omega
        exact_mod_cast hcast
      · exact List.nodup_range N
    · intro x hx
      rw [List.mem_map] at hx
      obtain ⟨i, _, rfl⟩ := hx
      omega

/-- Witness for C3: the invariant after one creation, and the lower bound on
a number allocated among three successive creations. -/
theorem c3_allocation_invariant_witness :
    ((10001 : Int), decZero).1
        < (runOps (initBank ("1.2.3.4".data)) [Op.ac]).next_account_number ∧
    (initBank ("1.2.3.4".data)).next_account_number ≤ 10002 :=
  ⟨c3_allocation_invariant.1 ("1.2.3.4".data) [Op.ac] (10001, decZero) (by decide),
   (c3_allocation_invariant.2.2 (initBank ("1.2.3.4".data)) 3).2.2 10002 (by decide)⟩


/-- C5 counterexample: with bank address `1.1.1.1`, a deposit to an account
at the foreign address `9.9.9.9` with the unparsable amount `abc` reports
the amount-conversion error, not the not-local error — `Decimal(amount)` is
evaluated before the bank-address check. -/
theorem c5_counterexample :
    execute_command ⟨[], 10001, "1.1.1.1".data⟩ ("AD 10001/9.9.9.9 abc".data)
        = (⟨[], 10001, "1.1.1.1".data⟩, "ERROR: ".data ++ msgConvSyntax) ∧
    ¬ "ERROR: ".data ++ msgConvSyntax = "ERROR: ".data ++ msgNotLocal ("1.1.1.1".data) := by
  exact ⟨rfl, by decide⟩

/-- C5 (amended): the deposit validation order actually implemented —
`'/'`-presence, two-way split, account-number parse, amount parse, then
`IP = bankAddress`, then positivity, then existence; a non-local id is
reported as not-local only once the number and the amount both parse. -/
theorem c5_amended_deposit_order :
    ∀ (s : BankState) (a m : Str),
      ('/' ∉ a → account_deposit s a m = (s, Except.error msgBadAccFormat)) ∧
      (∀ parts, '/' ∈ a → splitChar '/' a = parts → parts.length ≠ 2 →
        account_deposit s a m = (s, Except.error msgBadNumOrAmount)) ∧
      (∀ ns ipd, '/' ∈ a → splitChar '/' a = [ns, ipd] → parseInt ns = none →
        account_deposit s a m = (s, Except.error msgBadNumOrAmount)) ∧
      (∀ ns ipd n, '/' ∈ a → splitChar '/' a = [ns, ipd] → parseInt ns = some n →
        parseDec m = none →
        account_deposit s a m = (s, Except.error msgConvSyntax)) ∧
      (∀ ns ipd n amt, '/' ∈ a → splitChar '/' a = [ns, ipd] → parseInt ns = some n →
        parseDec m = some amt → ipd ≠ s.ip_address →
        account_deposit s a m = (s, Except.error (msgNotLocal s.ip_address))) ∧
      (∀ ns n amt, '/' ∈ a → splitChar '/' a = [ns, s.ip_address] → parseInt ns = some n →
        parseDec m = some amt → decLe amt decZero = true →
        account_deposit s a m = (s, Except.error msgNonPositive)) ∧
      (∀ ns n amt, '/' ∈ a → splitChar '/' a = [ns, s.ip_address] → parseInt ns = some n →
        parseDec m = some amt → decLe amt decZero = false →
        dictGet n s.accounts = none →
        account_deposit s a m = (s, Except.error msgNoAccount)) := by
  intro s a m
  refine ⟨?_, ?_, ?_, ?_, ?_, ?_, ?_⟩
  · intro hmem
    unfold account_deposit
    rw [if_neg hmem]
  · intro parts hmem hsplit hlen
    unfold account_deposit
    rw [if_pos hmem, hsplit]
    rcases parts with _ | ⟨x, _ | ⟨y, _ | ⟨z, rest⟩⟩⟩
    · rfl
    · rfl
    · exact absurd rfl hlen
    · rfl
  · intro ns ipd hmem hsplit hparse
    unfold account_deposit
    rw [if_pos hmem, hsplit]
    dsimp only
    rw [hparse]
  · intro ns ipd n hmem hsplit hparse hparsem
    unfold account_deposit
    rw [if_pos hmem, hsplit]
    dsimp only
    rw [hparse]
    dsimp only
    rw [hparsem]
  · intro ns ipd n amt hmem hsplit hparse hparsem hip
    unfold account_deposit
    rw [if_pos hmem, hsplit]
    dsimp only
    rw [hparse]
    dsimp only
    rw [hparsem]
    dsimp only
    rw [if_pos hip]
  · intro ns n amt hmem hsplit hparse hparsem hle
    unfold account_deposit
    rw [if_pos hmem, hsplit]
    dsimp only
    rw [hparse]
    dsimp only
    rw [hparsem]
    dsimp only
    rw [if_neg (show ¬ s.ip_address ≠ s.ip_address from fun hne => hne rfl), if_pos hle]
  · intro ns n amt hmem hsplit hparse hparsem hle hget
    unfold account_deposit
    rw [if_pos hmem, hsplit]
    dsimp only
    rw [hparse]
    dsimp only
    rw [hparsem]
    dsimp only
    rw [if_neg (show ¬ s.ip_address ≠ s.ip_address from fun hne => hne rfl),
      if_neg (show ¬ decLe amt decZero = true from by simp [hle]), hget]

/-- Witness for C5 (amended): the amount-parse error fires on a non-local
id with an unparsable amount. -/
theorem c5_amended_deposit_order_witness :
    account_deposit ⟨[], 10001, "1.1.1.1".data⟩ ("10001/9.9.9.9".data) ("abc".data)
      = (⟨[], 10001, "1.1.1.1".data⟩, Except.error msgConvSyntax) :=
  (c5_amended_deposit_order ⟨[], 10001, "1.1.1.1".data⟩
      ("10001/9.9.9.9".data) ("abc".data)).2.2.2.1
    ("10001".data) ("9.9.9.9".data) 10001 (by decide) rfl rfl rfl

/-- C6: `execute_command` is total by construction (it is a Lean function
returning one response string for every input line), and every failure path
yields an `ERROR:`-prefixed line and leaves the state unchanged: the empty
command, unknown opcodes, wrong argument counts, and every deposit,
withdrawal or balance call that raises (which covers malformed account ids
and unparsable amounts). -/
theorem c6_total_error_lines :
    ∀ (s : BankState) (cmd : Str),
      (pySplitWs (pyStrip cmd) = [] →
        execute_command s cmd = (s, "ERROR: Prázdný příkaz".data)) ∧
      (∀ p0 rest, pySplitWs (pyStrip cmd) = p0 :: rest →
        (pyUpper p0 ∉ [("BC".data : Str), "AC".data, "AD".data, "AW".data, "AB".data] →
          (execute_command s cmd).1 = s ∧
          List.IsPrefix ("ERROR: ".data) (execute_command s cmd).2) ∧
        ((pyUpper p0 = "AD".data ∨ pyUpper p0 = "AW".data) → rest.length ≠ 2 →
          (execute_command s cmd).1 = s ∧
          List.IsPrefix ("ERROR: ".data) (execute_command s cmd).2) ∧
        (pyUpper p0 = "AB".data → rest.length ≠ 1 →
          (execute_command s cmd).1 = s ∧
          List.IsPrefix ("ERROR: ".data) (execute_command s cmd).2) ∧
        (∀ a m e, pyUpper p0 = "AD".data → rest = [a, m] →
          (account_deposit s a m).2 = Except.error e →
          execute_command s cmd = (s, "ERROR: ".data ++ e)) ∧
        (∀ a m e, pyUpper p0 = "AW".data → rest = [a, m] →
          (account_withdrawal s a m).2 = Except.error e →
          execute_command s cmd = (s, "ERROR: ".data ++ e)) ∧
        (∀ a e, pyUpper p0 = "AB".data → rest = [a] →
          account_balance s a = Except.error e →
          execute_command s cmd = (s, "ERROR: ".data ++ e))) := by
  intro s cmd
  constructor
  · intro h
    unfold execute_command
    rw [h]
  · intro p0 rest h
    refine ⟨?_, ?_, ?_, ?_, ?_, ?_⟩
    · intro hunk
      simp only [List.mem_cons, List.not_mem_nil, or_false, not_or] at hunk
      obtain ⟨h1, h2, h3, h4, h5⟩ := hunk
      unfold execute_command
      rw [h]
      dsimp only
      rw [if_neg h1, if_neg h2, if_neg h3, if_neg h4, if_neg h5]
      exact ⟨rfl, ⟨"Neznámý příkaz '".data ++ pyUpper p0 ++ ['\''], by simp⟩⟩
    · intro had hlen
      unfold execute_command
      rw [h]
      dsimp only
      rcases had with had | had
      · rw [if_neg (by rw [had]; decide), if_neg (by rw [had]; decide), if_pos had]
        rcases rest with _ | ⟨a, rest⟩
        · exact ⟨rfl, ⟨"Použití: AD číslo/IP částka".data, rfl⟩⟩
        · rcases rest with _ | ⟨m2, rest⟩
          · exact ⟨rfl, ⟨"Použití: AD číslo/IP částka".data, rfl⟩⟩
          · rcases rest with _ | ⟨c, rest⟩
            · exact absurd rfl hlen
            · exact ⟨rfl, ⟨"Použití: AD číslo/IP částka".data, rfl⟩⟩
      · rw [if_neg (by rw [had]; decide), if_neg (by rw [had]; decide),
          if_neg (by rw [had]; decide), if_pos had]
        rcases rest with _ | ⟨a, rest⟩
        · exact ⟨rfl, ⟨"Použití: AW číslo/IP částka".data, rfl⟩⟩
        · rcases rest with _ | ⟨m2, rest⟩
          · exact ⟨rfl, ⟨"Použití: AW číslo/IP částka".data, rfl⟩⟩
          · rcases rest with _ | ⟨c, rest⟩
            · exact absurd rfl hlen
            · exact ⟨rfl, ⟨"Použití: AW číslo/IP částka".data, rfl⟩⟩
    · intro had hlen
      unfold execute_command
      rw [h]
      dsimp only
      rw [if_neg (by rw [had]; decide), if_neg (by rw [had]; decide),
        if_neg (by rw [had]; decide), if_neg (by rw [had]; decide), if_pos had]
      rcases rest with _ | ⟨a, rest⟩
      · exact ⟨rfl, ⟨"Použití: AB číslo/IP".data, rfl⟩⟩
      · rcases rest with _ | ⟨b2, rest⟩
        · exact absurd rfl hlen
        · exact ⟨rfl, ⟨"Použití: AB číslo/IP".data, rfl⟩⟩
    · intro a m e had hrest herr
      subst hrest
      unfold execute_command
      rw [h]
      dsimp only
      rw [if_neg (by rw [had]; decide), if_neg (by rw [had]; decide), if_pos had]
      have h1 : (account_deposit s a m).1 = s := account_deposit_err herr
      rcases hq : account_deposit s a m with ⟨s2, r⟩
      rw [hq] at herr h1
      dsimp only at herr h1
      cases r with
      | ok t => exact absurd herr (by simp)
      | error e2 =>
        have he : e2 = e := by injection herr
        subst he
        dsimp only
        rw [h1]
    · intro a m e had hrest herr
      subst hrest
      unfold execute_command
      rw [h]
      dsimp only
      rw [if_neg (by rw [had]; decide), if_neg (by rw [had]; decide),
        if_neg (by rw [had]; decide), if_pos had]
      have h1 : (account_withdrawal s a m).1 = s := account_withdrawal_err herr
      rcases hq : account_withdrawal s a m with ⟨s2, r⟩
      rw [hq] at herr h1
      dsimp only at herr h1
      cases r with
      | ok t => exact absurd herr (by simp)
      | error e2 =>
        have he : e2 = e := by injection herr
        subst he
        dsimp only
        rw [h1]
    · intro a e had hrest herr
      subst hrest
      unfold execute_command
      rw [h]
      dsimp only
      rw [if_neg (by rw [had]; decide), if_neg (by rw [had]; decide),
        if_neg (by rw [had]; decide), if_neg (by rw [had]; decide), if_pos had]
      rw [herr]

/-- Witness for C6: the empty line and an unknown opcode both produce
`ERROR:` lines on an untouched state. -/
theorem c6_total_error_lines_witness :
    execute_command ⟨[], 10001, "1.2.3.4".data⟩ ("".data)
        = (⟨[], 10001, "1.2.3.4".data⟩, "ERROR: Prázdný příkaz".data) ∧
    (execute_command ⟨[], 10001, "1.2.3.4".data⟩ ("XX".data)).1
        = ⟨[], 10001, "1.2.3.4".data⟩ ∧
    List.IsPrefix ("ERROR: ".data)
      (execute_command ⟨[], 10001, "1.2.3.4".data⟩ ("XX".data)).2 :=
  ⟨(c6_total_error_lines ⟨[], 10001, "1.2.3.4".data⟩ ("".data)).1 rfl,
   ((c6_total_error_lines ⟨[], 10001, "1.2.3.4".data⟩ ("XX".data)).2
      ("XX".data) [] rfl).1 (by decide)⟩

theorem mem_of_getLast? {l : Str} {c : Char} (h : l.getLast? = some c) : c ∈ l := by
  rw [← List.head?_reverse] at h
  have hmem : c ∈ l.reverse := by
    cases hr : l.reverse with
    | nil => rw [hr] at h; exact Option.noConfusion h
    | cons x xs =>
      rw [hr, List.head?_cons] at h
      exact (Option.some.inj h) ▸ List.mem_cons_self x xs
  exact List.mem_reverse.mp hmem

/-- C4 (amended): for a withdrawal on an existing local account whose
amount parses as a finite positive decimal, the call fails exactly when
`balance < amount`; on insufficient funds the ledger is unchanged and the
response (after the command layer's `ERROR:` prefix) carries the current
balance; otherwise it succeeds and stores `balance - amount`, so
withdrawing an amount equal to the balance succeeds and leaves a zero
balance.  (The non-finite amount `Infinity`, also accepted by `Decimal` and
positive, escapes this contract: withdrawing it from an `Infinity` balance
raises `InvalidOperation` although `balance < amount` is `False`, and the
error line lacks the balance.) -/
theorem c4_withdrawal_boundary :
    ∀ (s : BankState) (a m ns : Str) (n : Int) (bal amt : Dec),
      '/' ∈ a → splitChar '/' a = [ns, s.ip_address] → parseInt ns = some n →
      dictGet n s.accounts = some bal → parseDec m = some amt →
      decLe amt decZero = false →
      ((∃ e, (account_withdrawal s a m).2 = Except.error e) ↔ decLt bal amt = true) ∧
      (decLt bal amt = true →
        account_withdrawal s a m = (s, Except.error (msgInsufficient bal))) ∧
      (decLt bal amt = false →
        account_withdrawal s a m =
          ({ s with accounts := dictSet n (decSub bal amt) s.accounts },
           Except.ok ("OK: Vybráno ".data ++ formatDec amt ++ " Kč z účtu ".data ++ a ++
             ", nový zůstatek: ".data ++ formatDec (decSub bal amt) ++ " Kč".data))) ∧
      (decEqv bal amt = true → decLt bal amt = false ∧ (decSub bal amt).m = 0) ∧
      (decLt bal amt = true → a ≠ [] → m ≠ [] →
        (∀ c ∈ a, isWS c = false) → (∀ c ∈ m, isWS c = false) →
        execute_command s ("AW".data ++ ' ' :: (a ++ ' ' :: m))
          = (s, "ERROR: ".data ++ msgInsufficient bal)) := by
  intro s a m ns n bal amt hmem hsplit hparse hget hparsem hle
  have hred : account_withdrawal s a m =
      (if decLt bal amt = true
       then (s, Except.error (msgInsufficient bal))
       else ({ s with accounts := dictSet n (decSub bal amt) s.accounts },
         Except.ok ("OK: Vybráno ".data ++ formatDec amt ++ " Kč z účtu ".data ++ a ++
           ", nový zůstatek: ".data ++ formatDec (decSub bal amt) ++ " Kč".data))) := by
    unfold account_withdrawal
    rw [if_pos hmem, hsplit]
    dsimp only
    rw [hparse]
    dsimp only
    rw [hparsem]
    dsimp only
    rw [if_neg (show ¬ s.ip_address ≠ s.ip_address from fun hne => hne rfl),
      if_neg (show ¬ decLe amt decZero = true from by simp [hle]), hget]
  refine ⟨⟨?_, ?_⟩, ?_, ?_, ?_, ?_⟩
  · rintro ⟨e, he⟩
    by_contra hlt
    rw [Bool.not_eq_true] at hlt
    rw [hred, if_neg (by simp [hlt])] at he
    exact absurd he (by simp)
  · intro hlt
    exact ⟨msgInsufficient bal, by rw [hred, if_pos hlt]⟩
  · intro hlt
    rw [hred, if_pos hlt]
  · intro hlt
    rw [hred, if_neg (by simp [hlt])]
  · intro heq
    have hltf : decLt bal amt = false := by
      simp only [decEqv, decide_eq_true_eq] at heq
      simp [decLt, heq]
    exact ⟨hltf, decSub_eqv_zero heq⟩
  · intro hlt ha hm hwa hwm
    have hstrip : pyStrip ("AW".data ++ ' ' :: (a ++ ' ' :: m))
        = "AW".data ++ ' ' :: (a ++ ' ' :: m) := by
      apply pyStrip_eq_self
      · intro c hc
        have hh : ("AW".data ++ ' ' :: (a ++ ' ' :: m)).head? = some 'A' := rfl
        rw [hh] at hc
        have hca : 'A' = c := Option.some.inj hc
        rw [← hca]
        rfl
      · intro c hc
        have hlast : ("AW".data ++ ' ' :: (a ++ ' ' :: m)).getLast? = m.getLast? := by
          rw [getLast?_append_of_ne_nil (by simp),
            show (' ' :: (a ++ ' ' :: m)) = [' '] ++ (a ++ ' ' :: m) from rfl,
            getLast?_append_of_ne_nil (by simp),
            getLast?_append_of_ne_nil (by simp),
            show (' ' :: m) = [' '] ++ m from rfl,
            getLast?_append_of_ne_nil hm]
        rw [hlast] at hc
        exact hwm c (mem_of_getLast? hc)
    have hsplit3 : pySplitWs ("AW".data ++ ' ' :: (a ++ ' ' :: m)) = ["AW".data, a, m] :=
      pySplitWs_three ("AW".data) a m (by decide) (by decide) ha hwa hm hwm
    unfold execute_command
    rw [hstrip, hsplit3]
    dsimp only
    rw [if_neg (by decide), if_neg (by decide), if_neg (by decide), if_pos (by decide)]
    rw [hred, if_pos hlt]

/-- Witness for C4: withdrawing `60.0` from a 60-balance account is the
equal-amount boundary — not rejected, and the resulting balance is zero. -/
theorem c4_withdrawal_boundary_witness :
    decLt (⟨60, 0⟩ : Dec) ⟨600, -1⟩ = false ∧ (decSub ⟨60, 0⟩ ⟨600, -1⟩).m = 0 :=
  (c4_withdrawal_boundary ⟨[(10001, ⟨60, 0⟩)], 10002, "1.2.3.4".data⟩
      ("10001/1.2.3.4".data) ("60.0".data) ("10001".data) 10001 ⟨60, 0⟩ ⟨600, -1⟩
      (by decide) rfl rfl rfl rfl rfl).2.2.2.1 rfl

/-- C4 counterexample: `"Infinity"` is a positive parsable amount
(`Decimal('Infinity')` parses and is not `<= 0`), and depositing it on a
zero-balance local account succeeds, making the balance `Infinity`; the
subsequent withdrawal of `"Infinity"` from that account fails —
`balance -= amount` raises `InvalidOperation` — although
`balance < amount` is `False`, the ledger is unchanged, and the `ERROR:`
response line does not contain the balance.  So a withdrawal on an
existing local account with a positive parsable amount does not fail
exactly when `balance < amount`, and its failure line need not carry the
balance. -/
theorem c4_counterexample :
    parsePyDec ("Infinity".data) = some PyDec.pinf ∧
    pyLe PyDec.pinf pyZero = Except.ok false ∧
    account_deposit_py ⟨[(10001, PyDec.fin decZero)], 10002, "1.2.3.4".data⟩
        ("10001/1.2.3.4".data) ("Infinity".data)
      = (⟨[(10001, PyDec.pinf)], 10002, "1.2.3.4".data⟩,
         Except.ok
           ("OK: Vloženo Infinity Kč na účet 10001/1.2.3.4, nový zůstatek: Infinity Kč".data)) ∧
    pyLt PyDec.pinf PyDec.pinf = Except.ok false ∧
    account_withdrawal_py ⟨[(10001, PyDec.pinf)], 10002, "1.2.3.4".data⟩
        ("10001/1.2.3.4".data) ("Infinity".data)
      = (⟨[(10001, PyDec.pinf)], 10002, "1.2.3.4".data⟩, Except.error msgInvalidOperation) ∧
    strContains (formatPyDec PyDec.pinf) ("ERROR: ".data ++ msgInvalidOperation) = false :=
  ⟨rfl, rfl, rfl, rfl, rfl, rfl⟩

/-- C1: the fresh-ledger scenario — starting from a bank constructed with no
state file, `AC` answers `10001/<bankAddress>`; `AD 10001/<bankAddress> 100`
answers the `OK:` line with new balance `100`; `AW 10001/<bankAddress> 40`
answers the `OK:` line with new balance `60`; and `AB 10001/<bankAddress>`
answers the bare string `60`.  The bank address may be any string without
whitespace or `/` (as every IP address is). -/
theorem c1_scenario :
    ∀ ip : Str, (∀ c ∈ ip, isWS c = false) → '/' ∉ ip →
      execute_command (bankInit ip FileContent.absent) ("AC".data)
          = (⟨[(10001, decZero)], 10002, ip⟩, "10001/".data ++ ip) ∧
      execute_command ⟨[(10001, decZero)], 10002, ip⟩
          ("AD".data ++ ' ' :: (("10001/".data ++ ip) ++ ' ' :: "100".data))
          = (⟨[(10001, ⟨100, 0⟩)], 10002, ip⟩,
             "OK: Vloženo 100 Kč na účet 10001/".data ++ ip
               ++ ", nový zůstatek: 100 Kč".data) ∧
      execute_command ⟨[(10001, ⟨100, 0⟩)], 10002, ip⟩
          ("AW".data ++ ' ' :: (("10001/".data ++ ip) ++ ' ' :: "40".data))
          = (⟨[(10001, ⟨60, 0⟩)], 10002, ip⟩,
             "OK: Vybráno 40 Kč z účtu 10001/".data ++ ip
               ++ ", nový zůstatek: 60 Kč".data) ∧
      execute_command ⟨[(10001, ⟨60, 0⟩)], 10002, ip⟩
          ("AB".data ++ ' ' :: ("10001/".data ++ ip))
          = (⟨[(10001, ⟨60, 0⟩)], 10002, ip⟩, "60".data) := by
  intro ip hw hs
  have ht2ne : ("10001/".data ++ ip : Str) ≠ [] := by simp
  have ht2nws : ∀ c ∈ ("10001/".data ++ ip : Str), isWS c = false := by
    intro c hc
    rcases List.mem_append.mp hc with hc | hc
    · have hg : ∀ c ∈ ("10001/".data : Str), isWS c = false := by decide
      exact hg c hc
    · exact hw c hc
  have hmemt2 : '/' ∈ ("10001/".data ++ ip : Str) :=
    List.mem_append.mpr (Or.inl (by decide))
  have ht2shape : ("10001/".data ++ ip : Str) = "10001".data ++ ('/' :: ip) := by simp
  have hsplitSlash : splitChar '/' ("10001/".data ++ ip) = ["10001".data, ip] := by
    rw [ht2shape, splitChar_append '/' _ _ (by decide), splitChar_not_mem '/' ip hs]
  refine ⟨rfl, ?_, ?_, ?_⟩
  · -- AD 10001/<ip> 100
    have hhead : ∀ c, (("AD".data ++ ' ' :: (("10001/".data ++ ip) ++ ' ' :: "100".data)
        : Str)).head? = some c → isWS c = false := by
      intro c hc
      have hh : (("AD".data ++ ' ' :: (("10001/".data ++ ip) ++ ' ' :: "100".data)
          : Str)).head? = some 'A' := rfl
      rw [hh] at hc
      rw [← Option.some.inj hc]
      rfl
    have hlast : ∀ c, (("AD".data ++ ' ' :: (("10001/".data ++ ip) ++ ' ' :: "100".data)
        : Str)).getLast? = some c → isWS c = false := by
      intro c hc
      rw [getLast?_append_of_ne_nil (by simp),
        show (' ' :: (("10001/".data ++ ip) ++ ' ' :: "100".data))
          = [' '] ++ (("10001/".data ++ ip) ++ ' ' :: "100".data) from rfl,
        getLast?_append_of_ne_nil (by simp),
        getLast?_append_of_ne_nil (by simp),
        show (' ' :: "100".data) = [' '] ++ "100".data from rfl,
        getLast?_append_of_ne_nil (by simp)] at hc
      have h0 : ("100".data : Str).getLast? = some '0' := rfl
      rw [h0] at hc
      rw [← Option.some.inj hc]
      rfl
    have hsplit3 : pySplitWs (pyStrip ("AD".data ++ ' '
          :: (("10001/".data ++ ip) ++ ' ' :: "100".data)))
        = ["AD".data, "10001/".data ++ ip, "100".data] := by
      rw [pyStrip_eq_self _ hhead hlast]
      exact pySplitWs_three _ _ _ (by decide) (by decide) ht2ne ht2nws (by decide) (by decide)
    have hdep : account_deposit ⟨[(10001, decZero)], 10002, ip⟩
        ("10001/".data ++ ip) ("100".data)
        = (⟨[(10001, ⟨100, 0⟩)], 10002, ip⟩,
           Except.ok ("OK: Vloženo 100 Kč na účet 10001/".data ++ ip
             ++ ", nový zůstatek: 100 Kč".data)) := by
      unfold account_deposit
      rw [if_pos hmemt2, hsplitSlash]
      dsimp only
      rw [show parseInt ("10001".data) = some 10001 from rfl]
      dsimp only
      rw [show parseDec ("100".data) = some ⟨100, 0⟩ from rfl]
      dsimp only
      rw [if_neg (show ¬ ip ≠ ip from fun h => h rfl)]
      rw [if_neg (show ¬ decLe (⟨100, 0⟩ : Dec) decZero = true from by decide)]
      rw [show dictGet 10001 [(10001, decZero)] = some decZero from rfl]
      dsimp only
      rw [show decAdd decZero ⟨100, 0⟩ = (⟨100, 0⟩ : Dec) from rfl]
      rw [show dictSet 10001 (⟨100, 0⟩ : Dec) [(10001, decZero)]
        = [(10001, (⟨100, 0⟩ : Dec))] from rfl]
      rw [show formatDec (⟨100, 0⟩ : Dec) = "100".data from rfl]
      simp
    unfold execute_command
    rw [hsplit3]
    dsimp only
    rw [if_neg (by decide), if_neg (by decide), if_pos (by decide)]
    rw [hdep]
  · -- AW 10001/<ip> 40
    have hhead : ∀ c, (("AW".data ++ ' ' :: (("10001/".data ++ ip) ++ ' ' :: "40".data)
        : Str)).head? = some c → isWS c = false := by
      intro c hc
      have hh : (("AW".data ++ ' ' :: (("10001/".data ++ ip) ++ ' ' :: "40".data)
          : Str)).head? = some 'A' := rfl
      rw [hh] at hc
      rw [← Option.some.inj hc]
      rfl
    have hlast : ∀ c, (("AW".data ++ ' ' :: (("10001/".data ++ ip) ++ ' ' :: "40".data)
        : Str)).getLast? = some c → isWS c = false := by
      intro c hc
      rw [getLast?_append_of_ne_nil (by simp),
        show (' ' :: (("10001/".data ++ ip) ++ ' ' :: "40".data))
          = [' '] ++ (("10001/".data ++ ip) ++ ' ' :: "40".data) from rfl,
        getLast?_append_of_ne_nil (by simp),
        getLast?_append_of_ne_nil (by simp),
        show (' ' :: "40".data) = [' '] ++ "40".data from rfl,
        getLast?_append_of_ne_nil (by simp)] at hc
      have h0 : ("40".data : Str).getLast? = some '0' := rfl
      rw [h0] at hc
      rw [← Option.some.inj hc]
      rfl
    have hsplit3 : pySplitWs (pyStrip ("AW".data ++ ' '
          :: (("10001/".data ++ ip) ++ ' ' :: "40".data)))
        = ["AW".data, "10001/".data ++ ip, "40".data] := by
      rw [pyStrip_eq_self _ hhead hlast]
      exact pySplitWs_three _ _ _ (by decide) (by decide) ht2ne ht2nws (by decide) (by decide)
    have hwd : account_withdrawal ⟨[(10001, ⟨100, 0⟩)], 10002, ip⟩
        ("10001/".data ++ ip) ("40".data)
        = (⟨[(10001, ⟨60, 0⟩)], 10002, ip⟩,
           Except.ok ("OK: Vybráno 40 Kč z účtu 10001/".data ++ ip
             ++ ", nový zůstatek: 60 Kč".data)) := by
      unfold account_withdrawal
      rw [if_pos hmemt2, hsplitSlash]
      dsimp only
      rw [show parseInt ("10001".data) = some 10001 from rfl]
      dsimp only
      rw [show parseDec ("40".data) = some ⟨40, 0⟩ from rfl]
      dsimp only
      rw [if_neg (show ¬ ip ≠ ip from fun h => h rfl)]
      rw [if_neg (show ¬ decLe (⟨40, 0⟩ : Dec) decZero = true from by decide)]
      rw [show dictGet 10001 [(10001, (⟨100, 0⟩ : Dec))] = some ⟨100, 0⟩ from rfl]
      dsimp only
      rw [if_neg (show ¬ decLt (⟨100, 0⟩ : Dec) ⟨40, 0⟩ = true from by decide)]
      rw [show decSub ⟨100, 0⟩ ⟨40, 0⟩ = (⟨60, 0⟩ : Dec) from rfl]
      rw [show dictSet 10001 (⟨60, 0⟩ : Dec) [(10001, (⟨100, 0⟩ : Dec))]
        = [(10001, (⟨60, 0⟩ : Dec))] from rfl]
      rw [show formatDec (⟨40, 0⟩ : Dec) = "40".data from rfl]
      rw [show formatDec (⟨60, 0⟩ : Dec) = "60".data from rfl]
      simp
    unfold execute_command
    rw [hsplit3]
    dsimp only
    rw [if_neg (by decide), if_neg (by decide), if_neg (by decide), if_pos (by decide)]
    rw [hwd]
  · -- AB 10001/<ip>
    have hhead : ∀ c, (("AB".data ++ ' ' :: ("10001/".data ++ ip) : Str)).head? = some c →
        isWS c = false := by
      intro c hc
      have hh : (("AB".data ++ ' ' :: ("10001/".data ++ ip) : Str)).head? = some 'A' := rfl
      rw [hh] at hc
      rw [← Option.some.inj hc]
      rfl
    have hlast : ∀ c, (("AB".data ++ ' ' :: ("10001/".data ++ ip) : Str)).getLast? = some c →
        isWS c = false := by
      intro c hc
      rw [getLast?_append_of_ne_nil (by simp),
        show (' ' :: ("10001/".data ++ ip)) = [' '] ++ ("10001/".data ++ ip) from rfl,
        getLast?_append_of_ne_nil (by simp)] at hc
      by_cases hipn : ip = []
      · subst hipn
        rw [List.append_nil] at hc
        have h6 : ("10001/".data : Str).getLast? = some '/' := rfl
        rw [h6] at hc
        rw [← Option.some.inj hc]
        rfl
      · rw [getLast?_append_of_ne_nil hipn] at hc
        exact hw c (mem_of_getLast? hc)
    have hsplit2 : pySplitWs (pyStrip ("AB".data ++ ' ' :: ("10001/".data ++ ip)))
        = ["AB".data, "10001/".data ++ ip] := by
      rw [pyStrip_eq_self _ hhead hlast]
      exact pySplitWs_two _ _ (by decide) (by decide) ht2ne ht2nws
    have hbal : account_balance ⟨[(10001, ⟨60, 0⟩)], 10002, ip⟩ ("10001/".data ++ ip)
        = Except.ok ("60".data) := by
      unfold account_balance
      rw [if_pos hmemt2, hsplitSlash]
      dsimp only
      rw [show parseInt ("10001".data) = some 10001 from rfl]
      dsimp only
      rw [if_neg (show ¬ ip ≠ ip from fun h => h rfl)]
      rw [show dictGet 10001 [(10001, (⟨60, 0⟩ : Dec))] = some ⟨60, 0⟩ from rfl]
      dsimp only
      rw [show formatDec (⟨60, 0⟩ : Dec) = "60".data from rfl]
    unfold execute_command
    rw [hsplit2]
    dsimp only
    rw [if_neg (by decide), if_neg (by decide), if_neg (by decide), if_neg (by decide),
      if_pos (by decide)]
    rw [hbal]

/-- Witness for C1 at the concrete bank address `1.2.3.4`. -/
theorem c1_scenario_witness :
    execute_command (bankInit ("1.2.3.4".data) FileContent.absent) ("AC".data)
        = (⟨[(10001, decZero)], 10002, "1.2.3.4".data⟩, "10001/".data ++ "1.2.3.4".data) ∧
    execute_command ⟨[(10001, decZero)], 10002, "1.2.3.4".data⟩
        ("AD".data ++ ' ' :: (("10001/".data ++ "1.2.3.4".data) ++ ' ' :: "100".data))
        = (⟨[(10001, ⟨100, 0⟩)], 10002, "1.2.3.4".data⟩,
           "OK: Vloženo 100 Kč na účet 10001/".data ++ "1.2.3.4".data
             ++ ", nový zůstatek: 100 Kč".data) ∧
    execute_command ⟨[(10001, ⟨100, 0⟩)], 10002, "1.2.3.4".data⟩
        ("AW".data ++ ' ' :: (("10001/".data ++ "1.2.3.4".data) ++ ' ' :: "40".data))
        = (⟨[(10001, ⟨60, 0⟩)], 10002, "1.2.3.4".data⟩,
           "OK: Vybráno 40 Kč z účtu 10001/".data ++ "1.2.3.4".data
             ++ ", nový zůstatek: 60 Kč".data) ∧
    execute_command ⟨[(10001, ⟨60, 0⟩)], 10002, "1.2.3.4".data⟩
        ("AB".data ++ ' ' :: ("10001/".data ++ "1.2.3.4".data))
        = (⟨[(10001, ⟨60, 0⟩)], 10002, "1.2.3.4".data⟩, "60".data) :=
  c1_scenario ("1.2.3.4".data) (by decide) (by decide)

end P2PBank
